import Mathlib

/-!
Verification development for the FoodFlow transfer-recommendation engine,
a shallow embedding of src/ml/src/transfer_planner.py.

Modelling conventions:
* Python floats are modelled as exact rationals (ℚ).
* Python round(x, n) (round half to even at a decimal position) is
  modelled by pyRound.
* The transcendental part of haversine_km is abstracted as a parameter
  hav : ℚ → ℚ → ℚ → ℚ → ℚ (taking lat₁ lon₁ lat₂ lon₂); the structural part
  of haversine_km — returning None exactly when either node lacks
  coordinates — is kept in geoDistance.  The planners are parametrised by
  hav exactly as they call haversine_km.
* In-place mutation of the WarehouseState / FarmState objects is modelled
  by threading a list of inventories (indexed by position in the input
  list, which matches Python object identity: one object per list slot)
  and returning the final list alongside the recommendations.
-/

namespace FoodFlow

/-- Round half to even on rationals: the exact-value semantics of Python's
built-in round for floats that represent the value exactly. -/
def pyRoundHalfEven (q : ℚ) : ℤ :=
  if q - ⌊q⌋ < 1/2 then ⌊q⌋
  else if 1/2 < q - ⌊q⌋ then ⌊q⌋ + 1
  else if ⌊q⌋ % 2 = 0 then ⌊q⌋ else ⌊q⌋ + 1

/-- Python round(q, n) for a natural number of digits n. -/
def pyRound (q : ℚ) (n : ℕ) : ℚ :=
  (pyRoundHalfEven (q * (10 : ℚ) ^ n) : ℚ) / (10 : ℚ) ^ n

/-- NodeInfo from transfer_planner.py (the dataclass). -/
structure NodeInfo where
  mongo_id : String
  node_id : Option String
  name : Option String
  node_type : Option String
  state : Option String
  district : Option String
  region_id : Option String
  capacity_kg : ℚ
  lat : Option ℚ
  lon : Option ℚ
  deriving DecidableEq, Repr, Inhabited

/-- WarehouseState from transfer_planner.py: a node plus mutable inventory. -/
structure WarehouseState where
  node : NodeInfo
  inventory : ℚ
  deriving DecidableEq, Repr

/-- WarehouseState.capacity. -/
def WarehouseState.capacity (s : WarehouseState) : ℚ :=
  max s.node.capacity_kg 0

/-- WarehouseState.available_capacity. -/
def WarehouseState.available_capacity (s : WarehouseState) : ℚ :=
  max (s.capacity - s.inventory) 0

/-- WarehouseState.utilization: None when capacity is zero. -/
def WarehouseState.utilization (s : WarehouseState) : Option ℚ :=
  if s.capacity ≤ 0 then none else some (s.inventory / s.capacity)

/-- WarehouseState.clone. -/
def WarehouseState.clone (s : WarehouseState) : WarehouseState :=
  ⟨s.node, s.inventory⟩

/-- FarmState from transfer_planner.py. -/
structure FarmState where
  node : NodeInfo
  supply : ℚ
  deriving DecidableEq, Repr

/-- haversine_km with the transcendental arc formula abstracted as hav:
the result is None exactly when either node lacks a coordinate, as in the
source's explicit is-None checks. -/
def geoDistance (hav : ℚ → ℚ → ℚ → ℚ → ℚ) (a b : NodeInfo) : Option ℚ :=
  match a.lat, a.lon, b.lat, b.lon with
  | some la, some lo, some lb, some lg => some (hav la lo lb lg)
  | _, _, _, _ => none

/-- The merged payload dictionary produced by NodeInfo.to_payload followed
by node_projection_payload.  The extra dictionary passed by both planners
always holds exactly one numeric entry (excess_before_kg for sources,
shortage_before_kg for targets), modelled as the field extra_kg. -/
structure NodePayload where
  mongoId : String
  nodeId : Option String
  name : Option String
  node_type : Option String
  state : Option String
  district : Option String
  regionId : Option String
  capacity_kg : ℚ
  inventory_kg : ℚ
  location : Option (ℚ × ℚ)
  projected_inventory_kg : ℚ
  available_capacity_kg : ℚ
  utilization_pct : Option ℚ
  projected_utilization_pct : Option ℚ
  extra_kg : ℚ
  deriving DecidableEq, Repr

/-- format_pct from transfer_planner.py (NaN cannot arise over ℚ). -/
def format_pct (v : Option ℚ) : Option ℚ :=
  match v with
  | none => none
  | some x => some (pyRound (x * 100) 1)

/-- node_projection_payload from transfer_planner.py.  The source passes a
WarehouseState but reads only its immutable node, so the model takes the
NodeInfo directly; extra is the single numeric value of the extra dict. -/
def node_projection_payload (node : NodeInfo)
    (inventory_before inventory_after extra : ℚ) : NodePayload :=
  { mongoId := node.mongo_id
    nodeId := node.node_id
    name := node.name
    node_type := node.node_type
    state := node.state
    district := node.district
    regionId := node.region_id
    capacity_kg := pyRound node.capacity_kg 2
    inventory_kg := pyRound inventory_before 2
    location :=
      match node.lat, node.lon with
      | some la, some lo => some (la, lo)
      | _, _ => none
    projected_inventory_kg := pyRound inventory_after 2
    available_capacity_kg := pyRound (max (node.capacity_kg - inventory_after) 0) 2
    utilization_pct :=
      format_pct (if 0 < node.capacity_kg then some (inventory_before / node.capacity_kg) else none)
    projected_utilization_pct :=
      format_pct (if 0 < node.capacity_kg then some (inventory_after / node.capacity_kg) else none)
    extra_kg := extra }

/-- The payload dictionary produced by farm_payload (to_payload plus
remaining_supply_kg; the final type reassignment is the identity). -/
structure FarmPayload where
  mongoId : String
  nodeId : Option String
  name : Option String
  node_type : Option String
  state : Option String
  district : Option String
  regionId : Option String
  capacity_kg : ℚ
  inventory_kg : ℚ
  location : Option (ℚ × ℚ)
  remaining_supply_kg : ℚ
  deriving DecidableEq, Repr

/-- farm_payload from transfer_planner.py. -/
def farm_payload (node : NodeInfo) (supply_before supply_after : ℚ) : FarmPayload :=
  { mongoId := node.mongo_id
    nodeId := node.node_id
    name := node.name
    node_type := node.node_type
    state := node.state
    district := node.district
    regionId := node.region_id
    capacity_kg := pyRound node.capacity_kg 2
    inventory_kg := pyRound supply_before 2
    location :=
      match node.lat, node.lon with
      | some la, some lo => some (la, lo)
      | _, _ => none
    remaining_supply_kg := pyRound supply_after 2 }

/-- A warehouse-to-warehouse recommendation dictionary. -/
structure WhRec where
  rec_type : String
  suggested_quantity_kg : ℚ
  distance_km : ℚ
  source : NodePayload
  target : NodePayload
  notes : String
  deriving DecidableEq, Repr

/-- A farm-to-warehouse recommendation dictionary. -/
structure FarmRec where
  rec_type : String
  suggested_quantity_kg : ℚ
  distance_km : ℚ
  source : FarmPayload
  target : NodePayload
  notes : String
  deriving DecidableEq, Repr

/-! ### The warehouse-to-warehouse planning pass (plan_warehouse_transfers) -/

/-- An entry of the overstock pool: the list position of the warehouse in
the candidates list (standing for the Python object reference) and its
remaining excess. -/
structure OverEntry where
  idx : ℕ
  excess : ℚ
  deriving DecidableEq, Repr

/-- An entry of the understock pool. -/
structure UnderEntry where
  idx : ℕ
  shortage : ℚ
  deriving DecidableEq, Repr

/-- The utilization sort key of the warehouse at position i:
state.utilization() or 0.0. -/
def utilAt (ws : List WarehouseState) (i : ℕ) : ℚ :=
  match ws[i]? with
  | some s => s.utilization.getD 0
  | none => 0

/-- state.capacity() of the warehouse at position i. -/
def capAt (ws : List WarehouseState) (i : ℕ) : ℚ :=
  match ws[i]? with
  | some s => s.capacity
  | none => 0

/-- The immutable node of the warehouse at position i. -/
def nodeAt (ws : List WarehouseState) (i : ℕ) : NodeInfo :=
  match ws[i]? with
  | some s => s.node
  | none => default

/-- The current inventory at position i of the threaded inventory list. -/
def invAt (inv : List ℚ) (i : ℕ) : ℚ := inv.getD i 0

/-- Reading target_entry["shortage"] of the pool entry for position i. -/
def shortageOf (unders : List UnderEntry) (i : ℕ) : ℚ :=
  ((unders.find? (fun e => e.idx = i)).map (·.shortage)).getD 0

/-- Writing target_entry["shortage"] of the pool entry for position i. -/
def setShortage (unders : List UnderEntry) (i : ℕ) (v : ℚ) : List UnderEntry :=
  unders.map (fun e => if e.idx = i then ⟨i, v⟩ else e)

/-- The overstock entries contributed by the warehouse at position i in the
classification loop of plan_warehouse_transfers (lines 365-376). -/
def overEntriesFor (minT over ratio : ℚ) (i : ℕ) (s : WarehouseState) :
    List OverEntry :=
  let cap := s.capacity
  if cap ≤ 0 then []
  else
    let u := s.utilization.getD 0
    let tinv := cap * ratio
    if over < u ∧ tinv < s.inventory ∧ minT ≤ s.inventory - tinv then
      [⟨i, s.inventory - tinv⟩]
    else []

/-- The understock entries contributed by the warehouse at position i in
the classification loop of plan_warehouse_transfers (lines 365-371 and
378-381). -/
def underEntriesFor (minT under ratio : ℚ) (i : ℕ) (s : WarehouseState) :
    List UnderEntry :=
  let cap := s.capacity
  if cap ≤ 0 then []
  else
    let u := s.utilization.getD 0
    let tinv := cap * ratio
    if u < under ∧ minT ≤ tinv - s.inventory then
      [⟨i, tinv - s.inventory⟩]
    else []

/-- The classification loop, position i onwards: both pools are built in
candidate order, as the source's appends do. -/
def classifyGo (minT over under ratio : ℚ) (i : ℕ) :
    List WarehouseState → List OverEntry × List UnderEntry
  | [] => ([], [])
  | s :: rest =>
    let t := classifyGo minT over under ratio (i + 1) rest
    (overEntriesFor minT over ratio i s ++ t.1,
     underEntriesFor minT under ratio i s ++ t.2)

/-- The classification phase of plan_warehouse_transfers. -/
def classify (ws : List WarehouseState) (minT over under ratio : ℚ) :
    List OverEntry × List UnderEntry :=
  classifyGo minT over under ratio 0 ws

/-- Sort relation for overstock.sort(key=utilization, reverse=True):
a stable descending sort by utilization. -/
def overLE (ws : List WarehouseState) (a b : OverEntry) : Prop :=
  utilAt ws b.idx ≤ utilAt ws a.idx

instance (ws : List WarehouseState) : DecidableRel (overLE ws) :=
  fun _ _ => inferInstanceAs (Decidable (_ ≤ _))

instance (ws : List WarehouseState) : IsTotal OverEntry (overLE ws) :=
  ⟨fun a b => le_total (utilAt ws b.idx) (utilAt ws a.idx)⟩

instance (ws : List WarehouseState) : IsTrans OverEntry (overLE ws) :=
  ⟨fun _ _ _ h1 h2 => le_trans h2 h1⟩

/-- Sort relation for understock.sort(key=utilization): stable ascending. -/
def underLE (ws : List WarehouseState) (a b : UnderEntry) : Prop :=
  utilAt ws a.idx ≤ utilAt ws b.idx

instance (ws : List WarehouseState) : DecidableRel (underLE ws) :=
  fun _ _ => inferInstanceAs (Decidable (_ ≤ _))

instance (ws : List WarehouseState) : IsTotal UnderEntry (underLE ws) :=
  ⟨fun a b => le_total (utilAt ws a.idx) (utilAt ws b.idx)⟩

instance (ws : List WarehouseState) : IsTrans UnderEntry (underLE ws) :=
  ⟨fun _ _ _ h1 h2 => le_trans h1 h2⟩

/-- The distance sort key: None becomes float("inf"), modelled as ⊤. -/
def optDist (d : Option ℚ) : WithTop ℚ :=
  match d with
  | some x => (x : WithTop ℚ)
  | none => ⊤

/-- Sort relation for sorted(understock, key=distance to the source),
with unavailable distances last. -/
def targetLE (hav : ℚ → ℚ → ℚ → ℚ → ℚ) (ws : List WarehouseState) (src : ℕ)
    (a b : UnderEntry) : Prop :=
  optDist (geoDistance hav (nodeAt ws src) (nodeAt ws a.idx)) ≤
    optDist (geoDistance hav (nodeAt ws src) (nodeAt ws b.idx))

instance (hav : ℚ → ℚ → ℚ → ℚ → ℚ) (ws : List WarehouseState) (src : ℕ) :
    DecidableRel (targetLE hav ws src) :=
  fun _ _ => inferInstanceAs (Decidable (_ ≤ _))

instance (hav : ℚ → ℚ → ℚ → ℚ → ℚ) (ws : List WarehouseState) (src : ℕ) :
    IsTotal UnderEntry (targetLE hav ws src) :=
  ⟨fun _ _ => le_total _ _⟩

instance (hav : ℚ → ℚ → ℚ → ℚ → ℚ) (ws : List WarehouseState) (src : ℕ) :
    IsTrans UnderEntry (targetLE hav ws src) :=
  ⟨fun _ _ _ h1 h2 => le_trans h1 h2⟩

/-- The recommendation dictionary built at lines 428-451. -/
def mkWhRec (ws : List WarehouseState) (ratio : ℚ) (src tgt : ℕ)
    (transfer distance sb sa tb ta : ℚ) : WhRec :=
  { rec_type := "warehouse_to_warehouse"
    suggested_quantity_kg := pyRound transfer 2
    distance_km := pyRound distance 3
    source := node_projection_payload (nodeAt ws src) sb sa
      (pyRound (max (sb - capAt ws src * ratio) 0) 2)
    target := node_projection_payload (nodeAt ws tgt) tb ta
      (pyRound (max (capAt ws tgt * ratio - tb) 0) 2)
    notes := "Balance utilization by shifting inventory from an overstocked warehouse to a low-utilization peer." }

/-- The inner matching loop of plan_warehouse_transfers (lines 405-460):
iterate the distance-sorted target entries for one source, threading the
source's remaining excess (available), the inventories, the live
understock pool, and the recommendation list. -/
def whInner (hav : ℚ → ℚ → ℚ → ℚ → ℚ) (ws : List WarehouseState)
    (maxPairs : ℕ) (minT ratio : ℚ) (src : ℕ) :
    List UnderEntry → ℚ → List ℚ → List UnderEntry → List WhRec →
    ℚ × List ℚ × List UnderEntry × List WhRec
  | [], avail, inv, unders, recs => (avail, inv, unders, recs)
  | t :: rest, avail, inv, unders, recs =>
    if maxPairs ≤ recs.length ∨ avail < minT then (avail, inv, unders, recs)
    else
      let shortage := shortageOf unders t.idx
      if shortage < minT then
        whInner hav ws maxPairs minT ratio src rest avail inv unders recs
      else
        match geoDistance hav (nodeAt ws src) (nodeAt ws t.idx) with
        | none => whInner hav ws maxPairs minT ratio src rest avail inv unders recs
        | some distance =>
          let transfer := min avail shortage
          if transfer < minT then
            whInner hav ws maxPairs minT ratio src rest avail inv unders recs
          else
            let sb := invAt inv src
            let tb := invAt inv t.idx
            let sa := max (sb - transfer) 0
            let ta := tb + transfer
            let r := mkWhRec ws ratio src t.idx transfer distance sb sa tb ta
            whInner hav ws maxPairs minT ratio src rest (avail - transfer)
              ((inv.set src sa).set t.idx ta)
              (setShortage unders t.idx (shortage - transfer)) (recs ++ [r])

/-- The outer source loop of plan_warehouse_transfers (lines 391-460).
The write-back of the source's remaining excess into the pool entry is a
dead store in the source (each entry is visited once) and is not kept. -/
def whOuter (hav : ℚ → ℚ → ℚ → ℚ → ℚ) (ws : List WarehouseState)
    (maxPairs : ℕ) (minT ratio : ℚ) :
    List OverEntry → List ℚ → List UnderEntry → List WhRec →
    List ℚ × List UnderEntry × List WhRec
  | [], inv, unders, recs => (inv, unders, recs)
  | o :: rest, inv, unders, recs =>
    if maxPairs ≤ recs.length then (inv, unders, recs)
    else
      let sortedT := List.insertionSort (targetLE hav ws o.idx) unders
      let res := whInner hav ws maxPairs minT ratio o.idx sortedT o.excess inv unders recs
      whOuter hav ws maxPairs minT ratio rest res.2.1 res.2.2.1 res.2.2.2

/-- plan_warehouse_transfers, also returning the final inventories of the
mutated WarehouseState list (position-indexed). -/
def planWarehouseFull (hav : ℚ → ℚ → ℚ → ℚ → ℚ) (ws : List WarehouseState)
    (maxPairs : ℕ) (minT over under ratio : ℚ) : List WhRec × List ℚ :=
  let pools := classify ws minT over under ratio
  if pools.1 = [] ∨ pools.2 = [] then ([], ws.map (·.inventory))
  else
    let oversS := List.insertionSort (overLE ws) pools.1
    let undersS := List.insertionSort (underLE ws) pools.2
    let res := whOuter hav ws maxPairs minT ratio oversS (ws.map (·.inventory)) undersS []
    (res.2.2.take maxPairs, res.1)

/-- plan_warehouse_transfers: the returned recommendation list. -/
def plan_warehouse_transfers (hav : ℚ → ℚ → ℚ → ℚ → ℚ)
    (ws : List WarehouseState) (maxPairs : ℕ) (minT over under ratio : ℚ) :
    List WhRec :=
  (planWarehouseFull hav ws maxPairs minT over under ratio).1

/-! ### The farm-to-warehouse planning pass (plan_farm_to_warehouse) -/

/-- Sort relation for sorted(warehouses, key=distance to the farm) over
warehouse positions; unavailable distances sort last. -/
def whDistLE (hav : ℚ → ℚ → ℚ → ℚ → ℚ) (ws : List WarehouseState)
    (fnode : NodeInfo) (a b : ℕ) : Prop :=
  optDist (geoDistance hav fnode (nodeAt ws a)) ≤
    optDist (geoDistance hav fnode (nodeAt ws b))

instance (hav : ℚ → ℚ → ℚ → ℚ → ℚ) (ws : List WarehouseState) (fnode : NodeInfo) :
    DecidableRel (whDistLE hav ws fnode) :=
  fun _ _ => inferInstanceAs (Decidable (_ ≤ _))

instance (hav : ℚ → ℚ → ℚ → ℚ → ℚ) (ws : List WarehouseState) (fnode : NodeInfo) :
    IsTotal ℕ (whDistLE hav ws fnode) :=
  ⟨fun _ _ => le_total _ _⟩

instance (hav : ℚ → ℚ → ℚ → ℚ → ℚ) (ws : List WarehouseState) (fnode : NodeInfo) :
    IsTrans ℕ (whDistLE hav ws fnode) :=
  ⟨fun _ _ _ h1 h2 => le_trans h1 h2⟩

/-- Sort relation for sorted(farms, key=supply, reverse=True) over
position-tagged farms: a stable descending sort by available supply. -/
def farmGE (a b : ℕ × FarmState) : Prop :=
  b.2.supply ≤ a.2.supply

instance : DecidableRel farmGE :=
  fun _ _ => inferInstanceAs (Decidable (_ ≤ _))

instance : IsTotal (ℕ × FarmState) farmGE :=
  ⟨fun a b => le_total b.2.supply a.2.supply⟩

instance : IsTrans (ℕ × FarmState) farmGE :=
  ⟨fun _ _ _ h1 h2 => le_trans h2 h1⟩

/-- The inner candidate-warehouse loop of plan_farm_to_warehouse
(lines 494-546) for one farm, iterating distance-sorted warehouse
positions, threading the farm's available supply, the warehouse
inventories and the recommendation list. -/
def farmInner (hav : ℚ → ℚ → ℚ → ℚ → ℚ) (ws : List WarehouseState)
    (maxPairs : ℕ) (minT ratio : ℚ) (fnode : NodeInfo) :
    List ℕ → ℚ → List ℚ → List FarmRec → ℚ × List ℚ × List FarmRec
  | [], avail, inv, recs => (avail, inv, recs)
  | w :: rest, avail, inv, recs =>
    if maxPairs ≤ recs.length ∨ avail < minT then (avail, inv, recs)
    else
      match geoDistance hav fnode (nodeAt ws w) with
      | none => farmInner hav ws maxPairs minT ratio fnode rest avail inv recs
      | some distance =>
        let cap := capAt ws w
        if cap ≤ 0 then farmInner hav ws maxPairs minT ratio fnode rest avail inv recs
        else
          let tinv := cap * ratio
          let wb := invAt inv w
          if tinv ≤ wb then farmInner hav ws maxPairs minT ratio fnode rest avail inv recs
          else
            let receivable := min (max (tinv - wb) 0) (max (cap - wb) 0)
            if receivable < minT then
              farmInner hav ws maxPairs minT ratio fnode rest avail inv recs
            else
              let transfer := min avail receivable
              if transfer < minT then
                farmInner hav ws maxPairs minT ratio fnode rest avail inv recs
              else
                let sa := max (avail - transfer) 0
                let ta := wb + transfer
                let r : FarmRec :=
                  { rec_type := "farm_to_warehouse"
                    suggested_quantity_kg := pyRound transfer 2
                    distance_km := pyRound distance 3
                    source := farm_payload fnode avail sa
                    target := node_projection_payload (nodeAt ws w) wb ta
                      (pyRound (max (tinv - wb) 0) 2)
                    notes := "Route fresh harvest from farm to nearest warehouse with available capacity." }
                farmInner hav ws maxPairs minT ratio fnode rest sa (inv.set w ta)
                  (recs ++ [r])

/-- The outer farm loop of plan_farm_to_warehouse (lines 479-546).
It threads, besides the inventories and recommendations, the Python loop
variable farm_state (the position of the last farm iterated) and the
function-level variable available_supply — which, as in the source, is
only assigned after the max_pairs break check, so a break on entry leaves
it at the previous farm's value (or unassigned, modelled as none). -/
def farmOuter (hav : ℚ → ℚ → ℚ → ℚ → ℚ) (ws : List WarehouseState)
    (maxPairs : ℕ) (minT ratio : ℚ) :
    List (ℕ × FarmState) → List ℚ → List FarmRec → Option ℕ → Option ℚ →
    List ℚ × List FarmRec × Option ℕ × Option ℚ
  | [], inv, recs, lastF, lastA => (inv, recs, lastF, lastA)
  | (fi, f) :: rest, inv, recs, _, lastA =>
    if maxPairs ≤ recs.length then (inv, recs, some fi, lastA)
    else
      let avail := f.supply
      if avail < minT then
        farmOuter hav ws maxPairs minT ratio rest inv recs (some fi) (some avail)
      else
        let order := List.insertionSort (whDistLE hav ws f.node) (List.range ws.length)
        let res := farmInner hav ws maxPairs minT ratio f.node order avail inv recs
        farmOuter hav ws maxPairs minT ratio rest res.2.1 res.2.2 (some fi) (some res.1)

/-- plan_farm_to_warehouse, returning the recommendations together with the
final farm supplies and warehouse inventories (position-indexed).  The
result is none exactly when the source would raise NameError at line 548
(available_supply never assigned: an immediate max_pairs break on the first
farm).  The trailing assignment farm_state.supply = available_supply sits
outside the farm loop in the source, so it only writes the last iterated
farm; that is reproduced here. -/
def planFarmFull (hav : ℚ → ℚ → ℚ → ℚ → ℚ) (farms : List FarmState)
    (ws : List WarehouseState) (maxPairs : ℕ) (minT ratio : ℚ) :
    Option (List FarmRec × List ℚ × List ℚ) :=
  if farms = [] ∨ ws = [] then some ([], farms.map (·.supply), ws.map (·.inventory))
  else
    let sortedF := List.insertionSort farmGE farms.enum
    let res := farmOuter hav ws maxPairs minT ratio sortedF (ws.map (·.inventory)) [] none none
    match res.2.2.1, res.2.2.2 with
    | some fi, some a =>
      some (res.2.1.take maxPairs, (farms.map (·.supply)).set fi a, res.1)
    | some _, none => none
    | none, _ => some (res.2.1.take maxPairs, farms.map (·.supply), res.1)

/-- plan_farm_to_warehouse: the returned recommendation list (none when the
source raises NameError before returning). -/
def plan_farm_to_warehouse (hav : ℚ → ℚ → ℚ → ℚ → ℚ) (farms : List FarmState)
    (ws : List WarehouseState) (maxPairs : ℕ) (minT ratio : ℚ) :
    Option (List FarmRec) :=
  (planFarmFull hav farms ws maxPairs minT ratio).map (·.1)

/-! ### Inventory aggregation (compute_inventory_maps)

A pandas DataFrame built from a record list has a column exactly when some
record carries the key; records without it hold NaN there, modelled as
none.  Missing or non-numeric quantities are modelled as none (to_numeric
with errors="coerce" then fillna(0.0)).  The two result dictionaries are
modelled as total functions from node key to summed quantity (an absent
key and a zero sum are indistinguishable to the caller, which reads them
with .get(node, 0.0)).  A missing originNode column would make the source
raise at the .apply call; that path is outside the modelled inputs. -/

/-- One batch/consignment record as consumed by compute_inventory_maps. -/
structure BatchRecord where
  originNode : Option String
  currentNode : Option String
  current_quantity_kg : Option ℚ
  quantity_kg : Option ℚ
  status : Option String
  deriving DecidableEq, Repr

/-- The apply at lines 268-269: str(value) if value else None, which turns
the falsy empty string (and NaN, modelled as none) into None. -/
def effNodeStr (o : Option String) : Option String :=
  match o with
  | some s => if s = "" then none else some s
  | none => none

/-- Whether the DataFrame has a status column. -/
def statusColPresent (bs : List BatchRecord) : Bool :=
  bs.any (fun b => b.status.isSome)

/-- Whether the DataFrame has a currentNode column. -/
def currentColPresent (bs : List BatchRecord) : Bool :=
  bs.any (fun b => b.currentNode.isSome)

/-- Whether the DataFrame has an originNode column. -/
def originColPresent (bs : List BatchRecord) : Bool :=
  bs.any (fun b => b.originNode.isSome)

/-- Whether the DataFrame has a current_quantity_kg column. -/
def currentQtyColPresent (bs : List BatchRecord) : Bool :=
  bs.any (fun b => b.current_quantity_kg.isSome)

/-- Whether the DataFrame has a quantity_kg column. -/
def qtyColPresent (bs : List BatchRecord) : Bool :=
  bs.any (fun b => b.quantity_kg.isSome)

/-- The normalized currentNode cell (lines 263-268): fall back to the
originNode column when the currentNode column is absent. -/
def effCurrent (bs : List BatchRecord) (b : BatchRecord) : Option String :=
  if ¬ currentColPresent bs ∧ originColPresent bs then effNodeStr b.originNode
  else effNodeStr b.currentNode

/-- The normalized originNode cell (line 269). -/
def effOrigin (b : BatchRecord) : Option String :=
  effNodeStr b.originNode

/-- The normalized quantity cell (lines 271-273). -/
def effQty (bs : List BatchRecord) (b : BatchRecord) : ℚ :=
  (if ¬ currentQtyColPresent bs ∧ qtyColPresent bs then b.quantity_kg
   else b.current_quantity_kg).getD 0

/-- The normalized status cell (lines 274-277): when the column is absent
every record gets "stored"; a NaN cell under astype(str) becomes "nan". -/
def effStatus (bs : List BatchRecord) (b : BatchRecord) : String :=
  if statusColPresent bs then
    match b.status with
    | some s => s.toLower
    | none => "nan"
  else "stored"

/-- Membership of the normalized status in RELEVANT_BATCH_STATUSES. -/
def isRelevant (bs : List BatchRecord) (b : BatchRecord) : Bool :=
  effStatus bs b == "stored" || effStatus bs b == "reserved"

/-- The inventory_map of compute_inventory_maps read at a node key:
relevant records held at the node, quantities summed. -/
def inventoryMapAt (bs : List BatchRecord) (node : String) : ℚ :=
  ((bs.filter (fun b => isRelevant bs b && (effCurrent bs b == some node))).map
    (effQty bs)).sum

/-- The farm_map of compute_inventory_maps read at a node key: relevant
records whose origin equals their current location, at the node. -/
def farmMapAt (bs : List BatchRecord) (node : String) : ℚ :=
  ((bs.filter (fun b => isRelevant bs b && (effOrigin b == effCurrent bs b)
      && (effOrigin b == some node))).map (effQty bs)).sum

/-- Reference aggregate for C10, following the claim's words: every record
contributes to the per-node inventory, with no status filtering. -/
def inventoryMapAllAt (bs : List BatchRecord) (node : String) : ℚ :=
  ((bs.filter (fun b => effCurrent bs b == some node)).map (effQty bs)).sum

/-- Reference aggregate for C10, following the claim's words: every record
with origin equal to current location contributes to the per-farm supply,
with no status filtering. -/
def farmMapAllAt (bs : List BatchRecord) (node : String) : ℚ :=
  ((bs.filter (fun b => (effOrigin b == effCurrent bs b)
      && (effOrigin b == some node))).map (effQty bs)).sum

/-! ### Parameter validation and the main orchestration -/

/-- The argparse namespace fields consumed by validate_parameters and the
planners. -/
structure Params where
  max_pairs : ℤ
  min_transfer_kg : ℚ
  overstock_r : ℚ
  understock_r : ℚ
  target_r : ℚ
  deriving DecidableEq, Repr

/-- validate_parameters from transfer_planner.py (lines 553-561). -/
def validate_parameters (p : Params) : Except String Unit :=
  if p.target_r ≤ 0 ∨ 1 < p.target_r then
    Except.error "target-ratio must be in (0, 1]."
  else if ¬ (0 < p.understock_r ∧ p.understock_r < p.overstock_r ∧ p.overstock_r ≤ 1) then
    Except.error "Ensure 0 < understock-ratio < overstock-ratio <= 1."
  else if p.min_transfer_kg ≤ 0 then
    Except.error "min-transfer-kg must be positive."
  else if p.max_pairs ≤ 0 then
    Except.error "max-pairs must be positive."
  else Except.ok ()

/-- The report assembled by main (the recommendation lists and the
per-category counts; timestamp, echoed parameters and filters carry no
computation). -/
structure Report where
  count_wh : ℕ
  count_farm : ℕ
  whRecs : List WhRec
  farmRecs : List FarmRec
  deriving DecidableEq, Repr

/-- main from transfer_planner.py after argument parsing, in mode "all",
with the payload/Mongo data already shaped into warehouse and farm states
(reading the payload is the external data-access collaborator).
validate_parameters runs first; on failure nothing else is computed and
the error is surfaced, independent of the supplied data.  As in main, the
farm pass receives the farms filtered to supply ≥ min_transfer_kg and a
cloned copy of the warehouse states. -/
def runMain (hav : ℚ → ℚ → ℚ → ℚ → ℚ) (p : Params)
    (ws : List WarehouseState) (farms : List FarmState) : Except String Report :=
  match validate_parameters p with
  | Except.error e => Except.error e
  | Except.ok _ =>
    let whRecs := plan_warehouse_transfers hav ws p.max_pairs.toNat
      p.min_transfer_kg p.overstock_r p.understock_r p.target_r
    match planFarmFull hav (farms.filter (fun f => p.min_transfer_kg ≤ f.supply))
        (ws.map WarehouseState.clone) p.max_pairs.toNat p.min_transfer_kg p.target_r with
    | some r => Except.ok ⟨whRecs.length, r.1.length, whRecs, r.1⟩
    | none => Except.error "NameError: available_supply"

/-- The parameter-constraint predicate as the specification words it. -/
def ValidParams (p : Params) : Prop :=
  0 < p.target_r ∧ p.target_r ≤ 1 ∧
  0 < p.understock_r ∧ p.understock_r < p.overstock_r ∧ p.overstock_r ≤ 1 ∧
  0 < p.min_transfer_kg ∧ 0 < p.max_pairs

instance (p : Params) : Decidable (ValidParams p) := by
  unfold ValidParams; infer_instance

/-- The target inventory capacity() * target_ratio of the warehouse at
position i, as both planners compute it. -/
def tinvAt (ws : List WarehouseState) (ratio : ℚ) (i : ℕ) : ℚ :=
  capAt ws i * ratio

/-! ### Concrete scenario fixtures -/

/-- A constant abstract haversine arc, standing for a fixed pairwise
distance between the located test nodes. -/
def havK (k : ℚ) : ℚ → ℚ → ℚ → ℚ → ℚ := fun _ _ _ _ => k

/-- A warehouse node fixture, optionally located. -/
def whNode (id : String) (cap : ℚ) (located : Bool) : NodeInfo :=
  { mongo_id := id, node_id := none, name := none, node_type := some "warehouse",
    state := none, district := none, region_id := none, capacity_kg := cap,
    lat := if located then some 10 else none,
    lon := if located then some 20 else none }

/-- A farm node fixture (always located). -/
def farmNode (id : String) : NodeInfo :=
  { mongo_id := id, node_id := none, name := none, node_type := some "farm",
    state := none, district := none, region_id := none, capacity_kg := 5000,
    lat := some 11, lon := some 21 }

/-- Scenario 1 of the specification: a 95%-utilized warehouse and an empty
one, both of capacity 10000, located 50 km apart. -/
def wsScenario1 : List WarehouseState :=
  [⟨whNode "A" 10000 true, 9500⟩, ⟨whNode "B" 10000 true, 0⟩]

/-- Scenario 1 with all coordinates missing. -/
def wsUnlocated : List WarehouseState :=
  [⟨whNode "A" 10000 false, 9500⟩, ⟨whNode "B" 10000 false, 0⟩]

/-- A pair of warehouses exercising a min_transfer_kg of 200.004 kg
(= 50001/250): the source's excess is exactly the threshold. -/
def wsRoundGap : List WarehouseState :=
  [⟨whNode "A" 10000 true, 8000 + 50001/250⟩, ⟨whNode "B" 10000 true, 0⟩]

/-- A source warehouse holding 15000 kg against a 10000 kg capacity, and a
target just below the understock threshold at target_ratio 0.41. -/
def wsOverCap : List WarehouseState :=
  [⟨whNode "A" 10000 true, 15000⟩, ⟨whNode "B" 10000 true, 3900⟩]

/-- Two farms with positive supply, in descending supply order. -/
def farmsTwo : List FarmState :=
  [⟨farmNode "F1", 1000⟩, ⟨farmNode "F2", 800⟩]

/-- A single empty located warehouse of capacity 10000. -/
def whSingle : List WarehouseState := [⟨whNode "W" 10000 true, 0⟩]

/-- Batch records that carry no status field at all. -/
def batchesNoStatus : List BatchRecord :=
  [{ originNode := some "F1", currentNode := some "F1",
     current_quantity_kg := some 700, quantity_kg := none, status := none },
   { originNode := some "F1", currentNode := some "W1",
     current_quantity_kg := some 250, quantity_kg := none, status := none }]

/-- A valid parameter combination (the argparse defaults). -/
def paramsOk : Params :=
  { max_pairs := 5, min_transfer_kg := 200, overstock_r := 4/5,
    understock_r := 2/5, target_r := 3/5 }

/-- An invalid parameter combination: target-ratio above 1. -/
def paramsBad : Params :=
  { max_pairs := 5, min_transfer_kg := 200, overstock_r := 4/5,
    understock_r := 2/5, target_r := 2 }

/-- The single recommendation the warehouse rebalancer emits in
Scenario 1, written out in full. -/
def recScenario1 : WhRec :=
  { rec_type := "warehouse_to_warehouse"
    suggested_quantity_kg := 3500
    distance_km := 50
    source :=
      { mongoId := "A", nodeId := none, name := none,
        node_type := some "warehouse", state := none, district := none,
        regionId := none, capacity_kg := 10000, inventory_kg := 9500,
        location := some (10, 20), projected_inventory_kg := 6000,
        available_capacity_kg := 4000, utilization_pct := some 95,
        projected_utilization_pct := some 60, extra_kg := 3500 }
    target :=
      { mongoId := "B", nodeId := none, name := none,
        node_type := some "warehouse", state := none, district := none,
        regionId := none, capacity_kg := 10000, inventory_kg := 0,
        location := some (10, 20), projected_inventory_kg := 3500,
        available_capacity_kg := 6500, utilization_pct := some 0,
        projected_utilization_pct := some 35, extra_kg := 6000 }
    notes := "Balance utilization by shifting inventory from an overstocked warehouse to a low-utilization peer." }

/-! ### Arithmetic facts about pyRound -/

theorem floor_le_pyRoundHalfEven (q : ℚ) : ⌊q⌋ ≤ pyRoundHalfEven q := by
  unfold pyRoundHalfEven
  split_ifs <;> omega

theorem pyRoundHalfEven_le_floor_add_one (q : ℚ) :
    pyRoundHalfEven q ≤ ⌊q⌋ + 1 := by
  unfold pyRoundHalfEven
  split_ifs <;> omega

theorem pyRoundHalfEven_mono {x y : ℚ} (h : x ≤ y) :
    pyRoundHalfEven x ≤ pyRoundHalfEven y := by
  rcases lt_or_eq_of_le (Int.floor_le_floor h) with hlt | heq
  · calc pyRoundHalfEven x ≤ ⌊x⌋ + 1 := pyRoundHalfEven_le_floor_add_one x
      _ ≤ ⌊y⌋ := by omega
      _ ≤ pyRoundHalfEven y := floor_le_pyRoundHalfEven y
  · have hxy : x - (⌊x⌋ : ℚ) ≤ y - (⌊x⌋ : ℚ) := by linarith
    unfold pyRoundHalfEven
    rw [← heq]
    split_ifs <;> first | omega | linarith

theorem pyRoundHalfEven_ge (q : ℚ) : q - 1/2 ≤ (pyRoundHalfEven q : ℚ) := by
  have hu : q < ⌊q⌋ + 1 := Int.lt_floor_add_one q
  unfold pyRoundHalfEven
  split_ifs <;> push_cast <;> linarith

theorem int_le_pyRoundHalfEven {k : ℤ} {q : ℚ} (h : (k : ℚ) ≤ q) :
    k ≤ pyRoundHalfEven q :=
  le_trans (Int.le_floor.2 h) (floor_le_pyRoundHalfEven q)

theorem pyRound_mono {x y : ℚ} (n : ℕ) (h : x ≤ y) :
    pyRound x n ≤ pyRound y n := by
  have hp : (0 : ℚ) < (10 : ℚ) ^ n := by positivity
  unfold pyRound
  rw [div_le_div_iff_of_pos_right hp]
  exact_mod_cast pyRoundHalfEven_mono (mul_le_mul_of_nonneg_right h hp.le)

theorem pyRound_ge_sub (q : ℚ) (n : ℕ) :
    q - 1 / (2 * (10 : ℚ) ^ n) ≤ pyRound q n := by
  have hp : (0 : ℚ) < (10 : ℚ) ^ n := by positivity
  have h := pyRoundHalfEven_ge (q * (10 : ℚ) ^ n)
  unfold pyRound
  rw [le_div_iff₀ hp]
  calc (q - 1 / (2 * (10 : ℚ) ^ n)) * (10 : ℚ) ^ n
      = q * (10 : ℚ) ^ n - 1/2 := by field_simp; ring
    _ ≤ _ := h

theorem int_div_le_pyRound {k : ℤ} {q : ℚ} (n : ℕ)
    (h : (k : ℚ) ≤ q * (10 : ℚ) ^ n) : (k : ℚ) / (10 : ℚ) ^ n ≤ pyRound q n := by
  have hp : (0 : ℚ) < (10 : ℚ) ^ n := by positivity
  unfold pyRound
  rw [div_le_div_iff_of_pos_right hp]
  exact_mod_cast int_le_pyRoundHalfEven h

/-! ### Access lemmas for the threaded state -/

theorem invAt_set_self (l : List ℚ) (i : ℕ) (v : ℚ) (h : i < l.length) :
    invAt (l.set i v) i = v := by
  simp [invAt, List.getD_eq_getElem?_getD, List.getElem?_set_eq_of_lt v h]

theorem invAt_set_ne (l : List ℚ) (i j : ℕ) (v : ℚ) (h : j ≠ i) :
    invAt (l.set i v) j = invAt l j := by
  simp [invAt, List.getD_eq_getElem?_getD, List.getElem?_set_ne (fun hh => h hh.symm)]

theorem length_set_inv (l : List ℚ) (i : ℕ) (v : ℚ) :
    (l.set i v).length = l.length :=
  List.length_set l i v

theorem lt_length_of_capAt_pos {ws : List WarehouseState} {i : ℕ}
    (h : 0 < capAt ws i) : i < ws.length := by
  by_contra hge
  have : ws[i]? = none := List.getElem?_eq_none (le_of_not_lt hge)
  rw [capAt, this] at h
  exact absurd h (lt_irrefl 0)

theorem capAt_of_getElem {ws : List WarehouseState} {i : ℕ} {s : WarehouseState}
    (h : ws[i]? = some s) : capAt ws i = s.capacity := by
  simp [capAt, h]

theorem utilAt_of_getElem {ws : List WarehouseState} {i : ℕ} {s : WarehouseState}
    (h : ws[i]? = some s) : utilAt ws i = s.utilization.getD 0 := by
  simp [utilAt, h]

theorem nodeAt_of_getElem {ws : List WarehouseState} {i : ℕ} {s : WarehouseState}
    (h : ws[i]? = some s) : nodeAt ws i = s.node := by
  simp [nodeAt, h]

theorem invAt_map_inventory {ws : List WarehouseState} {i : ℕ} {s : WarehouseState}
    (h : ws[i]? = some s) : invAt (ws.map (·.inventory)) i = s.inventory := by
  simp [invAt, List.getD_eq_getElem?_getD, List.getElem?_map, h]

/-! ### Facts about the live understock pool -/

theorem setShortage_map_idx (unders : List UnderEntry) (i : ℕ) (v : ℚ) :
    (setShortage unders i v).map (·.idx) = unders.map (·.idx) := by
  induction unders with
  | nil => rfl
  | cons e rest ih =>
    simp only [setShortage, List.map_cons] at *
    split_ifs with h
    · simpa [h] using ih
    · simpa using ih

theorem shortageOf_eq_of_mem {unders : List UnderEntry} {e : UnderEntry}
    (hn : (unders.map (·.idx)).Nodup) (he : e ∈ unders) :
    shortageOf unders e.idx = e.shortage := by
  induction unders with
  | nil => cases he
  | cons a rest ih =>
    rcases List.mem_cons.1 he with rfl | hmem
    · rw [shortageOf, List.find?_cons_of_pos _ (by simp)]
      rfl
    · have hni : ¬ (a.idx = e.idx) := by
        intro hcontra
        apply (List.nodup_cons.1 hn).1
        show a.idx ∈ List.map (fun x => x.idx) rest
        rw [hcontra]
        exact List.mem_map_of_mem (·.idx) hmem
      rw [shortageOf, List.find?_cons_of_neg _ (by simpa using hni)]
      exact ih (List.nodup_cons.1 hn).2 hmem

theorem shortageOf_setShortage_ne {unders : List UnderEntry} {i : ℕ} (v : ℚ)
    {j : ℕ} (h : j ≠ i) :
    shortageOf (setShortage unders i v) j = shortageOf unders j := by
  induction unders with
  | nil => rfl
  | cons e rest ih =>
    by_cases hei : e.idx = i
    · rw [setShortage, List.map_cons, if_pos hei]
      rw [shortageOf, List.find?_cons_of_neg _ (by simpa using (h ∘ Eq.symm))]
      rw [shortageOf, List.find?_cons_of_neg _ (by simp [hei]; exact fun hh => h (hh ▸ hei ▸ rfl))]
      exact ih
    · rw [setShortage, List.map_cons, if_neg hei]
      by_cases hej : e.idx = j
      · rw [shortageOf, List.find?_cons_of_pos _ (by simpa using hej)]
        rw [shortageOf, List.find?_cons_of_pos _ (by simpa using hej)]
      · rw [shortageOf, List.find?_cons_of_neg _ (by simpa using hej)]
        rw [shortageOf, List.find?_cons_of_neg _ (by simpa using hej)]
        exact ih

theorem shortageOf_setShortage_self {unders : List UnderEntry} {i : ℕ} (v : ℚ)
    (h : i ∈ unders.map (·.idx)) :
    shortageOf (setShortage unders i v) i = v := by
  induction unders with
  | nil => cases h
  | cons e rest ih =>
    by_cases hei : e.idx = i
    · rw [setShortage, List.map_cons, if_pos hei]
      rw [shortageOf, List.find?_cons_of_pos _ (by simp)]
      rfl
    · rw [setShortage, List.map_cons, if_neg hei]
      rw [shortageOf, List.find?_cons_of_neg _ (by simpa using hei)]
      rcases List.mem_cons.1 (by simpa using h : i ∈ e.idx :: rest.map (·.idx)) with hh | hh
      · exact absurd hh.symm hei
      · exact ih (by simpa using hh)

theorem shortageOf_of_not_mem {unders : List UnderEntry} {i : ℕ}
    (h : i ∉ unders.map (·.idx)) : shortageOf unders i = 0 := by
  rw [shortageOf, List.find?_eq_none.2]
  · rfl
  · intro e he
    simp only [decide_eq_true_eq]
    intro hcontra
    exact h (hcontra ▸ List.mem_map_of_mem (·.idx) he)

/-! ### What classification guarantees about the two pools -/

/-- What holds of every overstock entry at classification time, phrased
against the warehouse list and its initial inventories. -/
def OverProp (ws : List WarehouseState) (minT over ratio : ℚ)
    (o : OverEntry) : Prop :=
  0 < capAt ws o.idx ∧
  over < utilAt ws o.idx ∧
  o.excess = invAt (ws.map (·.inventory)) o.idx - tinvAt ws ratio o.idx ∧
  minT ≤ o.excess ∧
  tinvAt ws ratio o.idx < invAt (ws.map (·.inventory)) o.idx

/-- What holds of every understock entry at classification time. -/
def UnderProp (ws : List WarehouseState) (minT under ratio : ℚ)
    (e : UnderEntry) : Prop :=
  0 < capAt ws e.idx ∧
  utilAt ws e.idx < under ∧
  e.shortage = tinvAt ws ratio e.idx - invAt (ws.map (·.inventory)) e.idx ∧
  minT ≤ e.shortage

theorem mem_overEntriesFor {minT over ratio : ℚ} {i : ℕ} {s : WarehouseState}
    {o : OverEntry} (h : o ∈ overEntriesFor minT over ratio i s) :
    ¬ s.capacity ≤ 0 ∧ over < s.utilization.getD 0 ∧
      s.capacity * ratio < s.inventory ∧
      minT ≤ s.inventory - s.capacity * ratio ∧
      o = ⟨i, s.inventory - s.capacity * ratio⟩ := by
  dsimp only [overEntriesFor] at h
  split_ifs at h with h1 h2
  · cases h
  · rcases List.mem_singleton.1 h with rfl
    exact ⟨h1, h2.1, h2.2.1, h2.2.2, rfl⟩
  · cases h

theorem mem_underEntriesFor {minT under ratio : ℚ} {i : ℕ} {s : WarehouseState}
    {e : UnderEntry} (h : e ∈ underEntriesFor minT under ratio i s) :
    ¬ s.capacity ≤ 0 ∧ s.utilization.getD 0 < under ∧
      minT ≤ s.capacity * ratio - s.inventory ∧
      e = ⟨i, s.capacity * ratio - s.inventory⟩ := by
  dsimp only [underEntriesFor] at h
  split_ifs at h with h1 h2
  · cases h
  · rcases List.mem_singleton.1 h with rfl
    exact ⟨h1, h2.1, h2.2, rfl⟩
  · cases h

theorem classifyGo_spec (ws : List WarehouseState) (minT over under ratio : ℚ) :
    ∀ (l : List WarehouseState) (i : ℕ),
    (∀ k : ℕ, l[k]? = ws[i + k]?) →
    (∀ o ∈ (classifyGo minT over under ratio i l).1,
        OverProp ws minT over ratio o ∧ i ≤ o.idx) ∧
    (∀ e ∈ (classifyGo minT over under ratio i l).2,
        UnderProp ws minT under ratio e ∧ i ≤ e.idx) ∧
    (((classifyGo minT over under ratio i l).1.map (·.idx)).Nodup) ∧
    (((classifyGo minT over under ratio i l).2.map (·.idx)).Nodup) := by
  intro l
  induction l with
  | nil =>
    intro i _
    refine ⟨?_, ?_, by simp [classifyGo], by simp [classifyGo]⟩ <;>
      simp [classifyGo]
  | cons s rest ih =>
    intro i hk
    have hs : ws[i]? = some s := by
      have := hk 0
      simpa using this.symm
    have hrest : ∀ k : ℕ, rest[k]? = ws[(i + 1) + k]? := by
      intro k
      have := hk (k + 1)
      simpa [Nat.add_assoc, Nat.add_comm 1 k] using this
    obtain ⟨iho, ihu, ihno, ihnu⟩ := ih (i + 1) hrest
    have hcap : capAt ws i = s.capacity := capAt_of_getElem hs
    have hutil : utilAt ws i = s.utilization.getD 0 := utilAt_of_getElem hs
    have hinv : invAt (ws.map (·.inventory)) i = s.inventory := invAt_map_inventory hs
    have hover : ∀ o ∈ overEntriesFor minT over ratio i s,
        OverProp ws minT over ratio o ∧ i ≤ o.idx := by
      intro o ho
      obtain ⟨h1, h2, h3, h4, rfl⟩ := mem_overEntriesFor ho
      refine ⟨⟨?_, ?_, ?_, ?_, ?_⟩, le_refl i⟩ <;>
        simp only [hcap, hutil, hinv, tinvAt] <;> first | exact lt_of_not_le h1 | assumption
    have hunder : ∀ e ∈ underEntriesFor minT under ratio i s,
        UnderProp ws minT under ratio e ∧ i ≤ e.idx := by
      intro e he
      obtain ⟨h1, h2, h3, rfl⟩ := mem_underEntriesFor he
      refine ⟨⟨?_, ?_, ?_, ?_⟩, le_refl i⟩ <;>
        simp only [hcap, hutil, hinv, tinvAt] <;> first | exact lt_of_not_le h1 | assumption
    refine ⟨?_, ?_, ?_, ?_⟩
    · intro o ho
      rcases List.mem_append.1 (by simpa [classifyGo] using ho) with hmem | hmem
      · exact hover o hmem
      · obtain ⟨hp, hi⟩ := iho o hmem
        exact ⟨hp, le_trans (Nat.le_succ i) hi⟩
    · intro e he
      rcases List.mem_append.1 (by simpa [classifyGo] using he) with hmem | hmem
      · exact hunder e hmem
      · obtain ⟨hp, hi⟩ := ihu e hmem
        exact ⟨hp, le_trans (Nat.le_succ i) hi⟩
    · show (((overEntriesFor minT over ratio i s ++
          (classifyGo minT over under ratio (i + 1) rest).1).map (·.idx)).Nodup)
      rw [List.map_append, List.nodup_append]
      refine ⟨?_, ihno, ?_⟩
      · dsimp only [overEntriesFor]
        split_ifs <;> simp
      · intro a ha hb
        obtain ⟨o, ho, rfl⟩ := List.mem_map.1 ha
        obtain ⟨o', ho', he'⟩ := List.mem_map.1 hb
        obtain ⟨_, _, _, _, rfl⟩ := mem_overEntriesFor ho
        obtain ⟨_, hi'⟩ := iho o' ho'
        dsimp only at he'
        omega
    · show (((underEntriesFor minT under ratio i s ++
          (classifyGo minT over under ratio (i + 1) rest).2).map (·.idx)).Nodup)
      rw [List.map_append, List.nodup_append]
      refine ⟨?_, ihnu, ?_⟩
      · dsimp only [underEntriesFor]
        split_ifs <;> simp
      · intro a ha hb
        obtain ⟨e, heq, rfl⟩ := List.mem_map.1 ha
        obtain ⟨e', he', hee⟩ := List.mem_map.1 hb
        obtain ⟨_, _, _, rfl⟩ := mem_underEntriesFor heq
        obtain ⟨_, hi'⟩ := ihu e' he'
        dsimp only at hee
        omega

theorem classify_spec (ws : List WarehouseState) (minT over under ratio : ℚ) :
    (∀ o ∈ (classify ws minT over under ratio).1, OverProp ws minT over ratio o) ∧
    (∀ e ∈ (classify ws minT over under ratio).2, UnderProp ws minT under ratio e) ∧
    (((classify ws minT over under ratio).1.map (·.idx)).Nodup) ∧
    (((classify ws minT over under ratio).2.map (·.idx)).Nodup) := by
  obtain ⟨ho, hu, hn1, hn2⟩ :=
    classifyGo_spec ws minT over under ratio ws 0 (fun k => by simp)
  exact ⟨fun o hoo => (ho o hoo).1, fun e hee => (hu e hee).1, hn1, hn2⟩

/-- With understock_ratio ≤ overstock_ratio the two pools never share a
warehouse. -/
theorem over_under_ne {ws : List WarehouseState} {minT over under ratio : ℚ}
    (hu : under ≤ over) {o : OverEntry} {e : UnderEntry}
    (ho : OverProp ws minT over ratio o) (he : UnderProp ws minT under ratio e) :
    o.idx ≠ e.idx := by
  intro hcontra
  have h1 := ho.2.1
  have h2 := he.2.1
  rw [hcontra] at h1
  linarith

/-! ### Invariants of the warehouse matching loops -/

theorem capAt_nonneg (ws : List WarehouseState) (i : ℕ) : 0 ≤ capAt ws i := by
  unfold capAt
  cases ws[i]? with
  | none => exact le_refl 0
  | some s => exact le_max_right _ _

theorem node_capacity_of_capAt_pos {ws : List WarehouseState} {i : ℕ}
    (h : 0 < capAt ws i) : (nodeAt ws i).capacity_kg = capAt ws i := by
  cases hw : ws[i]? with
  | none => simp [capAt, hw] at h
  | some s =>
    rw [capAt_of_getElem hw] at h ⊢
    rw [nodeAt_of_getElem hw]
    unfold WarehouseState.capacity at h ⊢
    rcases le_or_lt s.node.capacity_kg 0 with hle | hlt
    · rw [max_eq_right hle] at h
      exact absurd h (lt_irrefl 0)
    · rw [max_eq_left hlt.le]

theorem tinvAt_nonneg {ws : List WarehouseState} {ratio : ℚ} (hr : 0 ≤ ratio)
    (i : ℕ) : 0 ≤ tinvAt ws ratio i :=
  mul_nonneg (capAt_nonneg ws i) hr

theorem tinvAt_le_capAt {ws : List WarehouseState} {ratio : ℚ} (hr : ratio ≤ 1)
    (i : ℕ) : tinvAt ws ratio i ≤ capAt ws i :=
  mul_le_of_le_one_right (capAt_nonneg ws i) hr

/-- The live understock pool invariant of the inner matching loop, read
through shortageOf: every pool warehouse has positive capacity, a
non-negative remaining shortage, and inventory + shortage equal to its
target inventory, so no unit of shortage is counted twice. -/
def PoolOK (ws : List WarehouseState) (ratio : ℚ) (inv : List ℚ)
    (unders : List UnderEntry) : Prop :=
  ∀ i ∈ unders.map (·.idx), 0 < capAt ws i ∧ 0 ≤ shortageOf unders i ∧
    invAt inv i + shortageOf unders i = tinvAt ws ratio i

/-- The per-recommendation facts of claim C3 for a warehouse transfer: the
suggested quantity is bounded by the reported excess of the source and the
reported shortage of the target, and the target's projected inventory is
within its capacity. -/
def WhRecC3 (r : WhRec) : Prop :=
  r.suggested_quantity_kg ≤ r.source.extra_kg ∧
  r.suggested_quantity_kg ≤ r.target.extra_kg ∧
  r.target.projected_inventory_kg ≤ r.target.capacity_kg

/-- The full postcondition of the inner matching loop of
plan_warehouse_transfers, relative to the state it was entered with. -/
def WhInnerPost (ws : List WarehouseState) (ratio : ℚ) (src : ℕ)
    (inv : List ℚ) (unders : List UnderEntry) (recs : List WhRec)
    (res : ℚ × List ℚ × List UnderEntry × List WhRec) : Prop :=
  res.2.2.1.map (·.idx) = unders.map (·.idx) ∧
  res.2.1.length = inv.length ∧
  PoolOK ws ratio res.2.1 res.2.2.1 ∧
  res.1 = invAt res.2.1 src - tinvAt ws ratio src ∧
  0 ≤ res.1 ∧
  invAt res.2.1 src ≤ invAt inv src ∧
  (∀ j, j ≠ src → j ∉ unders.map (·.idx) → invAt res.2.1 j = invAt inv j) ∧
  (∀ i, shortageOf res.2.2.1 i ≤ shortageOf unders i) ∧
  (∃ new, res.2.2.2 = recs ++ new ∧ ∀ r ∈ new, WhRecC3 r)

theorem whInnerPost_stay {ws : List WarehouseState} {ratio : ℚ} {src : ℕ}
    {inv : List ℚ} {unders : List UnderEntry} {recs : List WhRec} {avail : ℚ}
    (hpool : PoolOK ws ratio inv unders)
    (havr : avail = invAt inv src - tinvAt ws ratio src) (hav0 : 0 ≤ avail) :
    WhInnerPost ws ratio src inv unders recs (avail, inv, unders, recs) :=
  ⟨rfl, rfl, hpool, havr, hav0, le_refl _, fun _ _ _ => rfl, fun _ => le_refl _,
    ⟨[], by simp, by simp⟩⟩

theorem whInner_spec (hav : ℚ → ℚ → ℚ → ℚ → ℚ) (ws : List WarehouseState)
    (maxPairs : ℕ) (minT ratio : ℚ) (src : ℕ)
    (hminT : 0 < minT) (hr0 : 0 ≤ ratio) (hr1 : ratio ≤ 1) :
    ∀ (ts : List UnderEntry) (avail : ℚ) (inv : List ℚ)
      (unders : List UnderEntry) (recs : List WhRec),
    inv.length = ws.length →
    src < ws.length →
    (unders.map (·.idx)).Nodup →
    (∀ i ∈ unders.map (·.idx), i ≠ src) →
    PoolOK ws ratio inv unders →
    avail = invAt inv src - tinvAt ws ratio src →
    0 ≤ avail →
    WhInnerPost ws ratio src inv unders recs
      (whInner hav ws maxPairs minT ratio src ts avail inv unders recs) := by
  intro ts
  induction ts with
  | nil =>
    intro avail inv unders recs _ _ _ _ hpool havr hav0
    exact whInnerPost_stay hpool havr hav0
  | cons t rest ih =>
    intro avail inv unders recs hlen hsrc hnd hne hpool havr hav0
    simp only [whInner]
    by_cases hbreak : maxPairs ≤ recs.length ∨ avail < minT
    · rw [if_pos hbreak]
      exact whInnerPost_stay hpool havr hav0
    rw [if_neg hbreak]
    by_cases hshort : shortageOf unders t.idx < minT
    · rw [if_pos hshort]
      exact ih avail inv unders recs hlen hsrc hnd hne hpool havr hav0
    rw [if_neg hshort]
    cases hd : geoDistance hav (nodeAt ws src) (nodeAt ws t.idx) with
    | none =>
      exact ih avail inv unders recs hlen hsrc hnd hne hpool havr hav0
    | some distance =>
      dsimp only
      by_cases htr : min avail (shortageOf unders t.idx) < minT
      · rw [if_pos htr]
        exact ih avail inv unders recs hlen hsrc hnd hne hpool havr hav0
      rw [if_neg htr]
      -- the emitting step
      have htm : t.idx ∈ unders.map (·.idx) := by
        by_contra hmem
        rw [shortageOf_of_not_mem hmem] at hshort
        exact hshort (by linarith)
      obtain ⟨hcapt, hsh0, hsum⟩ := hpool t.idx htm
      have htne : t.idx ≠ src := hne t.idx htm
      have htlt : t.idx < ws.length := lt_length_of_capAt_pos hcapt
      have htrm : minT ≤ min avail (shortageOf unders t.idx) := not_lt.1 htr
      have hta : min avail (shortageOf unders t.idx) ≤ avail := min_le_left _ _
      have hts : min avail (shortageOf unders t.idx) ≤ shortageOf unders t.idx :=
        min_le_right _ _
      have htinv0 : 0 ≤ tinvAt ws ratio src := tinvAt_nonneg hr0 src
      have hsa : max (invAt inv src - min avail (shortageOf unders t.idx)) 0
          = invAt inv src - min avail (shortageOf unders t.idx) :=
        max_eq_left (by linarith [min_le_left avail (shortageOf unders t.idx)])
      rw [hsa]
      have hlen1 : (inv.set src (invAt inv src - min avail (shortageOf unders t.idx))).length
          = inv.length := List.length_set _ _ _
      have hlen2 : ((inv.set src (invAt inv src - min avail (shortageOf unders t.idx))).set
          t.idx (invAt inv t.idx + min avail (shortageOf unders t.idx))).length
          = inv.length := by rw [List.length_set, hlen1]
      have hsrc_lt_inv : src < inv.length := by rw [hlen]; exact hsrc
      have ht_lt_inv : t.idx < (inv.set src (invAt inv src - min avail (shortageOf unders t.idx))).length := by
        rw [hlen1, hlen]; exact htlt
      have hinv2_src : invAt ((inv.set src (invAt inv src - min avail (shortageOf unders t.idx))).set
          t.idx (invAt inv t.idx + min avail (shortageOf unders t.idx))) src
          = invAt inv src - min avail (shortageOf unders t.idx) := by
        rw [invAt_set_ne _ _ _ _ (Ne.symm htne)]
        exact invAt_set_self _ _ _ hsrc_lt_inv
      have hinv2_t : invAt ((inv.set src (invAt inv src - min avail (shortageOf unders t.idx))).set
          t.idx (invAt inv t.idx + min avail (shortageOf unders t.idx))) t.idx
          = invAt inv t.idx + min avail (shortageOf unders t.idx) :=
        invAt_set_self _ _ _ ht_lt_inv
      have hinv2_other : ∀ j, j ≠ src → j ≠ t.idx →
          invAt ((inv.set src (invAt inv src - min avail (shortageOf unders t.idx))).set
            t.idx (invAt inv t.idx + min avail (shortageOf unders t.idx))) j = invAt inv j := by
        intro j hjs hjt
        rw [invAt_set_ne _ _ _ _ hjt, invAt_set_ne _ _ _ _ hjs]
      have hmap2 : (setShortage unders t.idx
          (shortageOf unders t.idx - min avail (shortageOf unders t.idx))).map (·.idx)
          = unders.map (·.idx) := setShortage_map_idx _ _ _
      have hsh2_t : shortageOf (setShortage unders t.idx
          (shortageOf unders t.idx - min avail (shortageOf unders t.idx))) t.idx
          = shortageOf unders t.idx - min avail (shortageOf unders t.idx) :=
        shortageOf_setShortage_self _ htm
      have hsh2_ne : ∀ i, i ≠ t.idx → shortageOf (setShortage unders t.idx
          (shortageOf unders t.idx - min avail (shortageOf unders t.idx))) i
          = shortageOf unders i := fun i hi => shortageOf_setShortage_ne _ hi
      have hpool2 : PoolOK ws ratio
          ((inv.set src (invAt inv src - min avail (shortageOf unders t.idx))).set
            t.idx (invAt inv t.idx + min avail (shortageOf unders t.idx)))
          (setShortage unders t.idx
            (shortageOf unders t.idx - min avail (shortageOf unders t.idx))) := by
        intro i hi
        rw [hmap2] at hi
        by_cases hit : i = t.idx
        · subst hit
          refine ⟨hcapt, by linarith, ?_⟩
          rw [hsh2_t, hinv2_t]
          linarith
        · obtain ⟨hc, hs0, hsm⟩ := hpool i hi
          refine ⟨hc, by rw [hsh2_ne i hit]; exact hs0, ?_⟩
          rw [hsh2_ne i hit, hinv2_other i (hne i hi) hit]
          exact hsm
      have havr2 : avail - min avail (shortageOf unders t.idx)
          = invAt ((inv.set src (invAt inv src - min avail (shortageOf unders t.idx))).set
              t.idx (invAt inv t.idx + min avail (shortageOf unders t.idx))) src
            - tinvAt ws ratio src := by
        rw [hinv2_src]
        linarith
      obtain ⟨p1, p2, p3, p4, p5, p6, p7, p8, new, hnew, hgood⟩ :=
        ih (avail - min avail (shortageOf unders t.idx))
          ((inv.set src (invAt inv src - min avail (shortageOf unders t.idx))).set
            t.idx (invAt inv t.idx + min avail (shortageOf unders t.idx)))
          (setShortage unders t.idx
            (shortageOf unders t.idx - min avail (shortageOf unders t.idx)))
          (recs ++ [mkWhRec ws ratio src t.idx (min avail (shortageOf unders t.idx))
            distance (invAt inv src)
            (invAt inv src - min avail (shortageOf unders t.idx))
            (invAt inv t.idx) (invAt inv t.idx + min avail (shortageOf unders t.idx))])
          (by rw [hlen2]; exact hlen) hsrc
          (by rw [hmap2]; exact hnd)
          (by rw [hmap2]; exact hne)
          hpool2 havr2 (by linarith)
      have hrecGood : WhRecC3 (mkWhRec ws ratio src t.idx
          (min avail (shortageOf unders t.idx)) distance (invAt inv src)
          (invAt inv src - min avail (shortageOf unders t.idx))
          (invAt inv t.idx) (invAt inv t.idx + min avail (shortageOf unders t.idx))) := by
      -- placeholder, filled below
        refine ⟨?_, ?_, ?_⟩
        · show pyRound (min avail (shortageOf unders t.idx)) 2 ≤
            pyRound (max (invAt inv src - capAt ws src * ratio) 0) 2
          apply pyRound_mono
          have : avail ≤ max (invAt inv src - capAt ws src * ratio) 0 := by
            rw [havr, tinvAt]
            exact le_max_left _ _
          linarith [hta]
        · show pyRound (min avail (shortageOf unders t.idx)) 2 ≤
            pyRound (max (capAt ws t.idx * ratio - invAt inv t.idx) 0) 2
          apply pyRound_mono
          have : shortageOf unders t.idx ≤ max (capAt ws t.idx * ratio - invAt inv t.idx) 0 := by
            have : shortageOf unders t.idx = tinvAt ws ratio t.idx - invAt inv t.idx := by
              linarith
            rw [this, tinvAt]
            exact le_max_left _ _
          linarith [hts]
        · show pyRound (invAt inv t.idx + min avail (shortageOf unders t.idx)) 2 ≤
            pyRound (nodeAt ws t.idx).capacity_kg 2
          apply pyRound_mono
          rw [node_capacity_of_capAt_pos hcapt]
          have h1 : invAt inv t.idx + min avail (shortageOf unders t.idx) ≤
              tinvAt ws ratio t.idx := by linarith [hts]
          linarith [@tinvAt_le_capAt ws ratio hr1 t.idx]
      refine ⟨?_, ?_, p3, p4, p5, ?_, ?_, ?_, ?_⟩
      · rw [p1, hmap2]
      · rw [p2, hlen2]
      · calc invAt (whInner hav ws maxPairs minT ratio src rest _ _ _ _).2.1 src
            ≤ _ := p6
          _ = invAt inv src - min avail (shortageOf unders t.idx) := hinv2_src
          _ ≤ invAt inv src := by linarith
      · intro j hjs hjm
        have hjt : j ≠ t.idx := fun hcontra => hjm (hcontra ▸ htm)
        rw [p7 j hjs (by rw [hmap2]; exact hjm), hinv2_other j hjs hjt]
      · intro i
        by_cases hit : i = t.idx
        · subst hit
          calc shortageOf (whInner hav ws maxPairs minT ratio src rest _ _ _ _).2.2.1 t.idx
              ≤ _ := p8 t.idx
            _ = shortageOf unders t.idx - min avail (shortageOf unders t.idx) := hsh2_t
            _ ≤ shortageOf unders t.idx := by linarith
        · calc shortageOf (whInner hav ws maxPairs minT ratio src rest _ _ _ _).2.2.1 i
              ≤ _ := p8 i
            _ = shortageOf unders i := hsh2_ne i hit
      · refine ⟨mkWhRec ws ratio src t.idx (min avail (shortageOf unders t.idx))
          distance (invAt inv src)
          (invAt inv src - min avail (shortageOf unders t.idx))
          (invAt inv t.idx) (invAt inv t.idx + min avail (shortageOf unders t.idx)) :: new,
          ?_, ?_⟩
        · rw [hnew]
          simp
        · intro r hr
          rcases List.mem_cons.1 hr with rfl | hmem
          · exact hrecGood
          · exact hgood r hmem

/-- What the outer source loop guarantees about every entry of the
overstock pool. -/
def OverOK (ws : List WarehouseState) (ratio : ℚ) (inv : List ℚ)
    (overs : List OverEntry) : Prop :=
  ∀ o ∈ overs, 0 < capAt ws o.idx ∧
    tinvAt ws ratio o.idx ≤ invAt inv o.idx ∧
    o.excess = invAt inv o.idx - tinvAt ws ratio o.idx

theorem whOuter_spec (hav : ℚ → ℚ → ℚ → ℚ → ℚ) (ws : List WarehouseState)
    (maxPairs : ℕ) (minT ratio : ℚ)
    (hminT : 0 < minT) (hr0 : 0 ≤ ratio) (hr1 : ratio ≤ 1) :
    ∀ (overs : List OverEntry) (inv : List ℚ) (unders : List UnderEntry)
      (recs : List WhRec),
    inv.length = ws.length →
    (unders.map (·.idx)).Nodup →
    PoolOK ws ratio inv unders →
    (overs.map (·.idx)).Nodup →
    OverOK ws ratio inv overs →
    (∀ o ∈ overs, ∀ i ∈ unders.map (·.idx), i ≠ o.idx) →
    (let res := whOuter hav ws maxPairs minT ratio overs inv unders recs
     res.2.1.map (·.idx) = unders.map (·.idx) ∧
     PoolOK ws ratio res.1 res.2.1 ∧
     (∀ i, shortageOf res.2.1 i ≤ shortageOf unders i) ∧
     (∀ o ∈ overs, tinvAt ws ratio o.idx ≤ invAt res.1 o.idx ∧
        invAt res.1 o.idx ≤ invAt inv o.idx) ∧
     res.1.length = inv.length ∧
     (∀ j, j ∉ overs.map (·.idx) → j ∉ unders.map (·.idx) →
        invAt res.1 j = invAt inv j) ∧
     (∃ new, res.2.2 = recs ++ new ∧ ∀ r ∈ new, WhRecC3 r)) := by
  intro overs
  induction overs with
  | nil =>
    intro inv unders recs _ _ hpool _ _ _
    exact ⟨rfl, hpool, fun _ => le_refl _, fun o ho => absurd ho (List.not_mem_nil o),
      rfl, fun _ _ _ => rfl, ⟨[], by simp [whOuter], by simp⟩⟩
  | cons o rest ih =>
    intro inv unders recs hlen hnd hpool hond hook hdisj
    simp only [whOuter]
    by_cases hbreak : maxPairs ≤ recs.length
    · rw [if_pos hbreak]
      refine ⟨rfl, hpool, fun _ => le_refl _, ?_, rfl, fun _ _ _ => rfl,
        ⟨[], by simp, by simp⟩⟩
      intro o' ho'
      exact ⟨(hook o' ho').2.1, le_refl _⟩
    rw [if_neg hbreak]
    have hond2 : (∀ x ∈ rest, ¬ x.idx = o.idx) ∧ ((rest.map (·.idx)).Nodup) := by
      simpa using hond
    obtain ⟨hocap, hole, hoex⟩ := hook o (List.mem_cons_self o rest)
    have hsrc : o.idx < ws.length := lt_length_of_capAt_pos hocap
    have hne : ∀ i ∈ unders.map (·.idx), i ≠ o.idx :=
      hdisj o (List.mem_cons_self o rest)
    have hstep := whInner_spec hav ws maxPairs minT ratio o.idx hminT hr0 hr1
      (List.insertionSort (targetLE hav ws o.idx) unders) o.excess inv unders recs
      hlen hsrc hnd hne hpool hoex (by linarith)
    obtain ⟨q1, q2, q3, q4, q5, q6, q7, q8, new1, hnew1, hgood1⟩ := hstep
    have homem : o.idx ∉ unders.map (·.idx) := fun hmem => hne o.idx hmem rfl
    have hrest_frame : ∀ o' ∈ rest,
        invAt (whInner hav ws maxPairs minT ratio o.idx
          (List.insertionSort (targetLE hav ws o.idx) unders)
          o.excess inv unders recs).2.1 o'.idx = invAt inv o'.idx := by
      intro o' ho'
      have hne1 : o'.idx ≠ o.idx := hond2.1 o' ho'
      have hnm : o'.idx ∉ unders.map (·.idx) := by
        intro hmem
        exact hdisj o' (List.mem_cons_of_mem o ho') o'.idx hmem rfl
      exact q7 o'.idx hne1 hnm
    have ihres := ih
      (whInner hav ws maxPairs minT ratio o.idx
        (List.insertionSort (targetLE hav ws o.idx) unders)
        o.excess inv unders recs).2.1
      (whInner hav ws maxPairs minT ratio o.idx
        (List.insertionSort (targetLE hav ws o.idx) unders)
        o.excess inv unders recs).2.2.1
      (whInner hav ws maxPairs minT ratio o.idx
        (List.insertionSort (targetLE hav ws o.idx) unders)
        o.excess inv unders recs).2.2.2
      (by rw [q2]; exact hlen)
      (by rw [q1]; exact hnd)
      q3
      hond2.2
      (by
        intro o' ho'
        obtain ⟨hc, hl, he⟩ := hook o' (List.mem_cons_of_mem o ho')
        rw [hrest_frame o' ho']
        exact ⟨hc, hl, he⟩)
      (by
        intro o' ho' i hi
        rw [q1] at hi
        exact hdisj o' (List.mem_cons_of_mem o ho') i hi)
    obtain ⟨r1, r2, r3, r4, r5, r6, r7⟩ := ihres
    have hfinal_o : invAt (whOuter hav ws maxPairs minT ratio rest
        (whInner hav ws maxPairs minT ratio o.idx
          (List.insertionSort (targetLE hav ws o.idx) unders)
          o.excess inv unders recs).2.1
        (whInner hav ws maxPairs minT ratio o.idx
          (List.insertionSort (targetLE hav ws o.idx) unders)
          o.excess inv unders recs).2.2.1
        (whInner hav ws maxPairs minT ratio o.idx
          (List.insertionSort (targetLE hav ws o.idx) unders)
          o.excess inv unders recs).2.2.2).1 o.idx
        = invAt (whInner hav ws maxPairs minT ratio o.idx
          (List.insertionSort (targetLE hav ws o.idx) unders)
          o.excess inv unders recs).2.1 o.idx := by
      apply r6
      · intro hmem
        obtain ⟨o', ho', heq⟩ := List.mem_map.1 hmem
        exact hond2.1 o' ho' heq
      · rw [q1]
        exact homem
    refine ⟨r1.trans q1, r2, fun i => le_trans (r3 i) (q8 i), ?_, by rw [r5, q2], ?_, ?_⟩
    · intro o' ho'
      rcases List.mem_cons.1 ho' with rfl | hmem
      · rw [hfinal_o]
        constructor
        · linarith [q4, q5]
        · exact q6
      · obtain ⟨hl, hu⟩ := r4 o' hmem
        rw [hrest_frame o' hmem] at hu
        exact ⟨hl, hu⟩
    · intro j hjo hju
      have hj1 : j ∉ rest.map (·.idx) := by
        intro hmem
        exact hjo (by simp only [List.map_cons, List.mem_cons]; exact Or.inr hmem)
      have hj2 : j ≠ o.idx := by
        intro hcontra
        exact hjo (by simp only [List.map_cons, List.mem_cons]; exact Or.inl hcontra)
      rw [r6 j hj1 (by rw [q1]; exact hju), q7 j hj2 hju]
    · obtain ⟨new2, hnew2, hgood2⟩ := r7
      refine ⟨new1 ++ new2, ?_, ?_⟩
      · rw [hnew2, hnew1, List.append_assoc]
      · intro r hr
        rcases List.mem_append.1 hr with hm | hm
        · exact hgood1 r hm
        · exact hgood2 r hm

theorem planWarehouseFull_eq_empty (hav : ℚ → ℚ → ℚ → ℚ → ℚ)
    (ws : List WarehouseState) (maxPairs : ℕ) (minT over under ratio : ℚ)
    (h : (classify ws minT over under ratio).1 = [] ∨
      (classify ws minT over under ratio).2 = []) :
    planWarehouseFull hav ws maxPairs minT over under ratio =
      ([], ws.map (·.inventory)) := by
  simp only [planWarehouseFull]
  rw [if_pos h]

theorem planWarehouseFull_eq_run (hav : ℚ → ℚ → ℚ → ℚ → ℚ)
    (ws : List WarehouseState) (maxPairs : ℕ) (minT over under ratio : ℚ)
    (h : ¬ ((classify ws minT over under ratio).1 = [] ∨
      (classify ws minT over under ratio).2 = [])) :
    planWarehouseFull hav ws maxPairs minT over under ratio =
      ((whOuter hav ws maxPairs minT ratio
          (List.insertionSort (overLE ws) (classify ws minT over under ratio).1)
          (ws.map (·.inventory))
          (List.insertionSort (underLE ws) (classify ws minT over under ratio).2)
          []).2.2.take maxPairs,
        (whOuter hav ws maxPairs minT ratio
          (List.insertionSort (overLE ws) (classify ws minT over under ratio).1)
          (ws.map (·.inventory))
          (List.insertionSort (underLE ws) (classify ws minT over under ratio).2)
          []).1) := by
  simp only [planWarehouseFull]
  rw [if_neg h]

set_option maxHeartbeats 1600000 in
theorem planWarehouseFull_spec (hav : ℚ → ℚ → ℚ → ℚ → ℚ)
    (ws : List WarehouseState) (maxPairs : ℕ) (minT over under ratio : ℚ)
    (hminT : 0 < minT) (hr0 : 0 ≤ ratio) (hr1 : ratio ≤ 1) (huo : under ≤ over) :
    (∀ r ∈ (planWarehouseFull hav ws maxPairs minT over under ratio).1, WhRecC3 r) ∧
    (∀ e ∈ (classify ws minT over under ratio).2,
        invAt (planWarehouseFull hav ws maxPairs minT over under ratio).2 e.idx ≤
          tinvAt ws ratio e.idx ∧
        invAt (ws.map (·.inventory)) e.idx ≤
          invAt (planWarehouseFull hav ws maxPairs minT over under ratio).2 e.idx ∧
        tinvAt ws ratio e.idx ≤ capAt ws e.idx ∧ 0 < capAt ws e.idx) ∧
    (∀ o ∈ (classify ws minT over under ratio).1,
        tinvAt ws ratio o.idx ≤
          invAt (planWarehouseFull hav ws maxPairs minT over under ratio).2 o.idx ∧
        invAt (planWarehouseFull hav ws maxPairs minT over under ratio).2 o.idx ≤
          invAt (ws.map (·.inventory)) o.idx ∧ 0 < capAt ws o.idx) := by
  obtain ⟨hoP, huP, hnodO, hnodU⟩ := classify_spec ws minT over under ratio
  by_cases hempty : (classify ws minT over under ratio).1 = [] ∨
      (classify ws minT over under ratio).2 = []
  · rw [planWarehouseFull_eq_empty hav ws maxPairs minT over under ratio hempty]
    refine ⟨by simp, ?_, ?_⟩
    · intro e he
      obtain ⟨hc, _, heq, hms⟩ := huP e he
      refine ⟨by linarith, le_refl _, tinvAt_le_capAt hr1 e.idx, hc⟩
    · intro o ho
      obtain ⟨hc, _, heq, _, hlt⟩ := hoP o ho
      exact ⟨by linarith, le_refl _, hc⟩
  rw [planWarehouseFull_eq_run hav ws maxPairs minT over under ratio hempty]
  have hpermO := List.perm_insertionSort (overLE ws) (classify ws minT over under ratio).1
  have hpermU := List.perm_insertionSort (underLE ws) (classify ws minT over under ratio).2
  have hnodUS : ((List.insertionSort (underLE ws)
      (classify ws minT over under ratio).2).map (·.idx)).Nodup :=
    ((hpermU.map (·.idx)).nodup_iff).2 hnodU
  have hnodOS : ((List.insertionSort (overLE ws)
      (classify ws minT over under ratio).1).map (·.idx)).Nodup :=
    ((hpermO.map (·.idx)).nodup_iff).2 hnodO
  have hlen0 : (ws.map (·.inventory)).length = ws.length := List.length_map _ _
  have hpool0 : PoolOK ws ratio (ws.map (·.inventory))
      (List.insertionSort (underLE ws) (classify ws minT over under ratio).2) := by
    intro i hi
    obtain ⟨e, he, heq⟩ := List.mem_map.1 hi
    have heC : e ∈ (classify ws minT over under ratio).2 := hpermU.mem_iff.1 he
    obtain ⟨hc, _, hse, hms⟩ := huP e heC
    have hsho : shortageOf (List.insertionSort (underLE ws)
        (classify ws minT over under ratio).2) e.idx = e.shortage :=
      shortageOf_eq_of_mem hnodUS he
    subst heq
    exact ⟨hc, by rw [hsho]; linarith, by rw [hsho]; linarith⟩
  have hoverok : OverOK ws ratio (ws.map (·.inventory))
      (List.insertionSort (overLE ws) (classify ws minT over under ratio).1) := by
    intro o ho
    have hoC : o ∈ (classify ws minT over under ratio).1 := hpermO.mem_iff.1 ho
    obtain ⟨hc, _, heq, _, hlt⟩ := hoP o hoC
    exact ⟨hc, by linarith, heq⟩
  have hdisj : ∀ o ∈ List.insertionSort (overLE ws) (classify ws minT over under ratio).1,
      ∀ i ∈ (List.insertionSort (underLE ws)
        (classify ws minT over under ratio).2).map (·.idx), i ≠ o.idx := by
    intro o ho i hi
    obtain ⟨e, he, heq⟩ := List.mem_map.1 hi
    have heC : e ∈ (classify ws minT over under ratio).2 := hpermU.mem_iff.1 he
    have hoC : o ∈ (classify ws minT over under ratio).1 := hpermO.mem_iff.1 ho
    subst heq
    exact fun hcontra =>
      over_under_ne huo (hoP o hoC) (huP e heC) hcontra.symm
  have houter := whOuter_spec hav ws maxPairs minT ratio hminT hr0 hr1
    (List.insertionSort (overLE ws) (classify ws minT over under ratio).1)
    (ws.map (·.inventory))
    (List.insertionSort (underLE ws) (classify ws minT over under ratio).2)
    [] hlen0 hnodUS hpool0 hnodOS hoverok hdisj
  obtain ⟨w1, w2, w3, w4, w5, w6, new, hnew, hgood⟩ := houter
  refine ⟨?_, ?_, ?_⟩
  · intro r hr
    have hr2 := List.take_subset maxPairs _ hr
    rw [hnew] at hr2
    exact hgood r (by simpa using hr2)
  · intro e he
    obtain ⟨hc, _, hse, hms⟩ := huP e he
    have heS : e ∈ List.insertionSort (underLE ws) (classify ws minT over under ratio).2 :=
      hpermU.mem_iff.2 he
    have hiU : e.idx ∈ (List.insertionSort (underLE ws)
        (classify ws minT over under ratio).2).map (·.idx) :=
      List.mem_map_of_mem (·.idx) heS
    have hiF : e.idx ∈ (whOuter hav ws maxPairs minT ratio
        (List.insertionSort (overLE ws) (classify ws minT over under ratio).1)
        (ws.map (·.inventory))
        (List.insertionSort (underLE ws) (classify ws minT over under ratio).2)
        []).2.1.map (·.idx) := by rw [w1]; exact hiU
    obtain ⟨_, hsf0, hsumf⟩ := w2 e.idx hiF
    have hsho : shortageOf (List.insertionSort (underLE ws)
        (classify ws minT over under ratio).2) e.idx = e.shortage :=
      shortageOf_eq_of_mem hnodUS heS
    have hmono := w3 e.idx
    rw [hsho] at hmono
    refine ⟨by linarith, by linarith, tinvAt_le_capAt hr1 e.idx, hc⟩
  · intro o ho
    have hoS : o ∈ List.insertionSort (overLE ws) (classify ws minT over under ratio).1 :=
      hpermO.mem_iff.2 ho
    obtain ⟨hl, hu⟩ := w4 o hoS
    obtain ⟨hc, _, _, _, _⟩ := hoP o ho
    exact ⟨hl, hu, hc⟩

/-! ### Invariants of the farm-to-warehouse loops -/

/-- The per-recommendation facts of claim C3 for a farm transfer. -/
def FarmRecC3 (r : FarmRec) : Prop :=
  r.suggested_quantity_kg ≤ r.source.inventory_kg ∧
  r.suggested_quantity_kg ≤ r.target.extra_kg ∧
  r.target.projected_inventory_kg ≤ r.target.capacity_kg

/-- A warehouse inventory cell after farm routing: either untouched, or
last written with a receipt bounded by both the target inventory and the
capacity of that warehouse. -/
def FarmInvPost (ws : List WarehouseState) (ratio : ℚ)
    (inv inv' : List ℚ) : Prop :=
  ∀ j, invAt inv' j = invAt inv j ∨
    (invAt inv' j ≤ tinvAt ws ratio j ∧ invAt inv' j ≤ capAt ws j)

theorem farmInvPost_refl (ws : List WarehouseState) (ratio : ℚ) (inv : List ℚ) :
    FarmInvPost ws ratio inv inv := fun _ => Or.inl rfl

theorem farmInvPost_trans {ws : List WarehouseState} {ratio : ℚ}
    {inv1 inv2 inv3 : List ℚ} (h12 : FarmInvPost ws ratio inv1 inv2)
    (h23 : FarmInvPost ws ratio inv2 inv3) : FarmInvPost ws ratio inv1 inv3 := by
  intro j
  rcases h23 j with heq | hb
  · rw [heq]
    exact h12 j
  · exact Or.inr hb

theorem farmInner_spec (hav : ℚ → ℚ → ℚ → ℚ → ℚ) (ws : List WarehouseState)
    (maxPairs : ℕ) (minT ratio : ℚ) (fnode : NodeInfo) (hminT : 0 < minT) :
    ∀ (order : List ℕ) (avail : ℚ) (inv : List ℚ) (recs : List FarmRec),
    (farmInner hav ws maxPairs minT ratio fnode order avail inv recs).2.1.length
      = inv.length ∧
    FarmInvPost ws ratio inv
      (farmInner hav ws maxPairs minT ratio fnode order avail inv recs).2.1 ∧
    (∃ new, (farmInner hav ws maxPairs minT ratio fnode order avail inv recs).2.2
      = recs ++ new ∧ ∀ r ∈ new, FarmRecC3 r) := by
  intro order
  induction order with
  | nil =>
    intro avail inv recs
    exact ⟨rfl, farmInvPost_refl ws ratio inv, ⟨[], by simp [farmInner], by simp⟩⟩
  | cons w rest ih =>
    intro avail inv recs
    simp only [farmInner]
    by_cases hbreak : maxPairs ≤ recs.length ∨ avail < minT
    · rw [if_pos hbreak]
      exact ⟨rfl, farmInvPost_refl ws ratio inv, ⟨[], by simp, by simp⟩⟩
    rw [if_neg hbreak]
    cases hd : geoDistance hav fnode (nodeAt ws w) with
    | none => exact ih avail inv recs
    | some distance =>
      dsimp only
      by_cases hcap : capAt ws w ≤ 0
      · rw [if_pos hcap]
        exact ih avail inv recs
      rw [if_neg hcap]
      by_cases hfull : tinvAt ws ratio w ≤ invAt inv w
      · rw [if_pos (by rw [tinvAt] at hfull; exact hfull)]
        exact ih avail inv recs
      rw [if_neg (by rw [tinvAt] at hfull; exact hfull)]
      by_cases hrecv : min (max (capAt ws w * ratio - invAt inv w) 0)
          (max (capAt ws w - invAt inv w) 0) < minT
      · rw [if_pos hrecv]
        exact ih avail inv recs
      rw [if_neg hrecv]
      by_cases htr : min avail (min (max (capAt ws w * ratio - invAt inv w) 0)
          (max (capAt ws w - invAt inv w) 0)) < minT
      · rw [if_pos htr]
        exact ih avail inv recs
      rw [if_neg htr]
      -- the emitting step
      have hrecv' : minT ≤ min (max (capAt ws w * ratio - invAt inv w) 0)
          (max (capAt ws w - invAt inv w) 0) := not_lt.1 hrecv
      have htr' : minT ≤ min avail (min (max (capAt ws w * ratio - invAt inv w) 0)
          (max (capAt ws w - invAt inv w) 0)) := not_lt.1 htr
      have h1 : min avail (min (max (capAt ws w * ratio - invAt inv w) 0)
          (max (capAt ws w - invAt inv w) 0)) ≤ avail := min_le_left _ _
      have h2 : min avail (min (max (capAt ws w * ratio - invAt inv w) 0)
          (max (capAt ws w - invAt inv w) 0))
          ≤ min (max (capAt ws w * ratio - invAt inv w) 0)
            (max (capAt ws w - invAt inv w) 0) := min_le_right _ _
      have h3 : min (max (capAt ws w * ratio - invAt inv w) 0)
          (max (capAt ws w - invAt inv w) 0) ≤ max (capAt ws w * ratio - invAt inv w) 0 :=
        min_le_left _ _
      have h4 : min (max (capAt ws w * ratio - invAt inv w) 0)
          (max (capAt ws w - invAt inv w) 0) ≤ max (capAt ws w - invAt inv w) 0 :=
        min_le_right _ _
      have hcw : 0 < max (capAt ws w - invAt inv w) 0 := lt_of_lt_of_le hminT
        (le_trans hrecv' h4)
      have hcw' : max (capAt ws w - invAt inv w) 0 = capAt ws w - invAt inv w := by
        rcases max_cases (capAt ws w - invAt inv w) (0 : ℚ) with ⟨he, _⟩ | ⟨he, hle⟩
        · exact he
        · rw [he] at hcw
          exact absurd hcw (lt_irrefl 0)
      have htw : 0 < max (capAt ws w * ratio - invAt inv w) 0 := lt_of_lt_of_le hminT
        (le_trans hrecv' h3)
      have htw' : max (capAt ws w * ratio - invAt inv w) 0
          = capAt ws w * ratio - invAt inv w := by
        rcases max_cases (capAt ws w * ratio - invAt inv w) (0 : ℚ) with ⟨he, _⟩ | ⟨he, _⟩
        · exact he
        · rw [he] at htw
          exact absurd htw (lt_irrefl 0)
      obtain ⟨r1, r2, new1, hnew1, hgood1⟩ := ih
        (max (avail - min avail (min (max (capAt ws w * ratio - invAt inv w) 0)
          (max (capAt ws w - invAt inv w) 0))) 0)
        (inv.set w (invAt inv w + min avail (min (max (capAt ws w * ratio - invAt inv w) 0)
          (max (capAt ws w - invAt inv w) 0))))
        (recs ++ [{ rec_type := "farm_to_warehouse"
                    suggested_quantity_kg := pyRound (min avail
                      (min (max (capAt ws w * ratio - invAt inv w) 0)
                        (max (capAt ws w - invAt inv w) 0))) 2
                    distance_km := pyRound distance 3
                    source := farm_payload fnode avail
                      (max (avail - min avail (min (max (capAt ws w * ratio - invAt inv w) 0)
                        (max (capAt ws w - invAt inv w) 0))) 0)
                    target := node_projection_payload (nodeAt ws w) (invAt inv w)
                      (invAt inv w + min avail (min (max (capAt ws w * ratio - invAt inv w) 0)
                        (max (capAt ws w - invAt inv w) 0)))
                      (pyRound (max (capAt ws w * ratio - invAt inv w) 0) 2)
                    notes := "Route fresh harvest from farm to nearest warehouse with available capacity." }])
      refine ⟨by rw [r1, List.length_set], ?_, ?_⟩
      · apply farmInvPost_trans _ r2
        intro j
        by_cases hjw : j = w
        · subst hjw
          by_cases hwlt : j < inv.length
          · right
            rw [invAt_set_self _ _ _ hwlt]
            constructor
            · rw [tinvAt]
              linarith [le_trans h2 h3, htw']
            · linarith [le_trans h2 h4, hcw']
          · left
            rw [List.set_eq_of_length_le (le_of_not_lt hwlt)]
        · left
          rw [invAt_set_ne _ _ _ _ hjw]
      · refine ⟨_ :: new1, by rw [hnew1, List.append_assoc, List.singleton_append], ?_⟩
        intro r hr
        rcases List.mem_cons.1 hr with rfl | hmem
        · refine ⟨?_, ?_, ?_⟩
          · show pyRound (min avail (min (max (capAt ws w * ratio - invAt inv w) 0)
              (max (capAt ws w - invAt inv w) 0))) 2 ≤ pyRound avail 2
            exact pyRound_mono 2 h1
          · show pyRound (min avail (min (max (capAt ws w * ratio - invAt inv w) 0)
              (max (capAt ws w - invAt inv w) 0))) 2
              ≤ pyRound (max (capAt ws w * ratio - invAt inv w) 0) 2
            exact pyRound_mono 2 (le_trans h2 h3)
          · show pyRound (invAt inv w + min avail (min (max (capAt ws w * ratio - invAt inv w) 0)
              (max (capAt ws w - invAt inv w) 0))) 2 ≤ pyRound (nodeAt ws w).capacity_kg 2
            apply pyRound_mono
            rw [node_capacity_of_capAt_pos (lt_of_not_le hcap)]
            linarith [le_trans h2 h4, hcw']
        · exact hgood1 r hmem

theorem farmOuter_spec (hav : ℚ → ℚ → ℚ → ℚ → ℚ) (ws : List WarehouseState)
    (maxPairs : ℕ) (minT ratio : ℚ) (hminT : 0 < minT) :
    ∀ (fs : List (ℕ × FarmState)) (inv : List ℚ) (recs : List FarmRec)
      (lastF : Option ℕ) (lastA : Option ℚ),
    (farmOuter hav ws maxPairs minT ratio fs inv recs lastF lastA).1.length
      = inv.length ∧
    FarmInvPost ws ratio inv
      (farmOuter hav ws maxPairs minT ratio fs inv recs lastF lastA).1 ∧
    (∃ new, (farmOuter hav ws maxPairs minT ratio fs inv recs lastF lastA).2.1
      = recs ++ new ∧ ∀ x ∈ new, FarmRecC3 x) := by
  intro fs
  induction fs with
  | nil =>
    intro inv recs lastF lastA
    exact ⟨rfl, farmInvPost_refl ws ratio inv, ⟨[], by simp [farmOuter], by simp⟩⟩
  | cons p rest ih =>
    intro inv recs lastF lastA
    obtain ⟨fi, f⟩ := p
    simp only [farmOuter]
    by_cases hbreak : maxPairs ≤ recs.length
    · rw [if_pos hbreak]
      exact ⟨rfl, farmInvPost_refl ws ratio inv, ⟨[], by simp, by simp⟩⟩
    rw [if_neg hbreak]
    by_cases hsmall : f.supply < minT
    · rw [if_pos hsmall]
      exact ih inv recs (some fi) (some f.supply)
    rw [if_neg hsmall]
    obtain ⟨q1, q2, new1, hnew1, hgood1⟩ := farmInner_spec hav ws maxPairs minT ratio
      f.node hminT (List.insertionSort (whDistLE hav ws f.node) (List.range ws.length))
      f.supply inv recs
    obtain ⟨r1, r2, new2, hnew2, hgood2⟩ := ih
      (farmInner hav ws maxPairs minT ratio f.node
        (List.insertionSort (whDistLE hav ws f.node) (List.range ws.length))
        f.supply inv recs).2.1
      (farmInner hav ws maxPairs minT ratio f.node
        (List.insertionSort (whDistLE hav ws f.node) (List.range ws.length))
        f.supply inv recs).2.2
      (some fi)
      (some (farmInner hav ws maxPairs minT ratio f.node
        (List.insertionSort (whDistLE hav ws f.node) (List.range ws.length))
        f.supply inv recs).1)
    refine ⟨by rw [r1, q1], farmInvPost_trans q2 r2, ?_⟩
    refine ⟨new1 ++ new2, ?_, ?_⟩
    · rw [hnew2, hnew1, List.append_assoc]
    · intro x hx
      rcases List.mem_append.1 hx with hm | hm
      · exact hgood1 x hm
      · exact hgood2 x hm

theorem planFarmFull_spec (hav : ℚ → ℚ → ℚ → ℚ → ℚ) (farms : List FarmState)
    (ws : List WarehouseState) (maxPairs : ℕ) (minT ratio : ℚ)
    (hminT : 0 < minT) :
    ∀ r, planFarmFull hav farms ws maxPairs minT ratio = some r →
    r.1.length ≤ maxPairs ∧ (∀ x ∈ r.1, FarmRecC3 x) ∧
    FarmInvPost ws ratio (ws.map (·.inventory)) r.2.2 := by
  intro r hr
  simp only [planFarmFull] at hr
  split_ifs at hr with hempty
  · obtain rfl := Option.some.inj hr
    exact ⟨Nat.zero_le _, by simp, farmInvPost_refl ws ratio _⟩
  · obtain ⟨o1, o2, new, hnew, hgood⟩ := farmOuter_spec hav ws maxPairs minT ratio hminT
      (List.insertionSort farmGE farms.enum) (ws.map (·.inventory)) [] none none
    split at hr
    · obtain rfl := Option.some.inj hr
      refine ⟨List.length_take_le _ _, ?_, o2⟩
      intro x hx
      have := List.take_subset maxPairs _ hx
      rw [hnew] at this
      exact hgood x (by simpa using this)
    · exact absurd hr (by simp)
    · obtain rfl := Option.some.inj hr
      refine ⟨List.length_take_le _ _, ?_, o2⟩
      intro x hx
      have := List.take_subset maxPairs _ hx
      rw [hnew] at this
      exact hgood x (by simpa using this)

/-! ### The minimum-transfer bound carried by every emitted quantity -/

/-- A reported quantity that is the 2-decimal rounding of an exact amount
at least min_transfer_kg. -/
def RoundedFrom (minT q : ℚ) : Prop :=
  ∃ t, minT ≤ t ∧ q = pyRound t 2

theorem whInner_recs_minT (hav : ℚ → ℚ → ℚ → ℚ → ℚ) (ws : List WarehouseState)
    (maxPairs : ℕ) (minT ratio : ℚ) (src : ℕ) :
    ∀ (ts : List UnderEntry) (avail : ℚ) (inv : List ℚ)
      (unders : List UnderEntry) (recs : List WhRec),
    ∃ new, (whInner hav ws maxPairs minT ratio src ts avail inv unders recs).2.2.2
      = recs ++ new ∧ ∀ r ∈ new, RoundedFrom minT r.suggested_quantity_kg := by
  intro ts
  induction ts with
  | nil =>
    intro avail inv unders recs
    exact ⟨[], by simp [whInner], by simp⟩
  | cons t rest ih =>
    intro avail inv unders recs
    simp only [whInner]
    by_cases hbreak : maxPairs ≤ recs.length ∨ avail < minT
    · rw [if_pos hbreak]
      exact ⟨[], by simp, by simp⟩
    rw [if_neg hbreak]
    by_cases hshort : shortageOf unders t.idx < minT
    · rw [if_pos hshort]
      exact ih avail inv unders recs
    rw [if_neg hshort]
    cases hd : geoDistance hav (nodeAt ws src) (nodeAt ws t.idx) with
    | none => exact ih avail inv unders recs
    | some distance =>
      dsimp only
      by_cases htr : min avail (shortageOf unders t.idx) < minT
      · rw [if_pos htr]
        exact ih avail inv unders recs
      rw [if_neg htr]
      obtain ⟨new1, hnew1, hgood1⟩ := ih (avail - min avail (shortageOf unders t.idx))
        ((inv.set src (max (invAt inv src - min avail (shortageOf unders t.idx)) 0)).set
          t.idx (invAt inv t.idx + min avail (shortageOf unders t.idx)))
        (setShortage unders t.idx
          (shortageOf unders t.idx - min avail (shortageOf unders t.idx)))
        (recs ++ [mkWhRec ws ratio src t.idx (min avail (shortageOf unders t.idx))
          distance (invAt inv src)
          (max (invAt inv src - min avail (shortageOf unders t.idx)) 0)
          (invAt inv t.idx) (invAt inv t.idx + min avail (shortageOf unders t.idx))])
      refine ⟨_ :: new1, by rw [hnew1, List.append_assoc, List.singleton_append], ?_⟩
      intro r hr
      rcases List.mem_cons.1 hr with rfl | hmem
      · exact ⟨min avail (shortageOf unders t.idx), not_lt.1 htr, rfl⟩
      · exact hgood1 r hmem

theorem whOuter_recs_minT (hav : ℚ → ℚ → ℚ → ℚ → ℚ) (ws : List WarehouseState)
    (maxPairs : ℕ) (minT ratio : ℚ) :
    ∀ (overs : List OverEntry) (inv : List ℚ) (unders : List UnderEntry)
      (recs : List WhRec),
    ∃ new, (whOuter hav ws maxPairs minT ratio overs inv unders recs).2.2
      = recs ++ new ∧ ∀ r ∈ new, RoundedFrom minT r.suggested_quantity_kg := by
  intro overs
  induction overs with
  | nil =>
    intro inv unders recs
    exact ⟨[], by simp [whOuter], by simp⟩
  | cons o rest ih =>
    intro inv unders recs
    simp only [whOuter]
    by_cases hbreak : maxPairs ≤ recs.length
    · rw [if_pos hbreak]
      exact ⟨[], by simp, by simp⟩
    rw [if_neg hbreak]
    obtain ⟨new1, hnew1, hgood1⟩ := whInner_recs_minT hav ws maxPairs minT ratio o.idx
      (List.insertionSort (targetLE hav ws o.idx) unders) o.excess inv unders recs
    obtain ⟨new2, hnew2, hgood2⟩ := ih
      (whInner hav ws maxPairs minT ratio o.idx
        (List.insertionSort (targetLE hav ws o.idx) unders) o.excess inv unders recs).2.1
      (whInner hav ws maxPairs minT ratio o.idx
        (List.insertionSort (targetLE hav ws o.idx) unders) o.excess inv unders recs).2.2.1
      (whInner hav ws maxPairs minT ratio o.idx
        (List.insertionSort (targetLE hav ws o.idx) unders) o.excess inv unders recs).2.2.2
    refine ⟨new1 ++ new2, ?_, ?_⟩
    · rw [hnew2, hnew1, List.append_assoc]
    · intro r hr
      rcases List.mem_append.1 hr with hm | hm
      · exact hgood1 r hm
      · exact hgood2 r hm

theorem plan_warehouse_transfers_minT (hav : ℚ → ℚ → ℚ → ℚ → ℚ)
    (ws : List WarehouseState) (maxPairs : ℕ) (minT over under ratio : ℚ) :
    ∀ r ∈ plan_warehouse_transfers hav ws maxPairs minT over under ratio,
      RoundedFrom minT r.suggested_quantity_kg := by
  intro r hr
  unfold plan_warehouse_transfers at hr
  by_cases hempty : (classify ws minT over under ratio).1 = [] ∨
      (classify ws minT over under ratio).2 = []
  · rw [planWarehouseFull_eq_empty hav ws maxPairs minT over under ratio hempty] at hr
    cases hr
  · rw [planWarehouseFull_eq_run hav ws maxPairs minT over under ratio hempty] at hr
    obtain ⟨new, hnew, hgood⟩ := whOuter_recs_minT hav ws maxPairs minT ratio
      (List.insertionSort (overLE ws) (classify ws minT over under ratio).1)
      (ws.map (·.inventory))
      (List.insertionSort (underLE ws) (classify ws minT over under ratio).2) []
    have := List.take_subset maxPairs _ hr
    rw [hnew] at this
    exact hgood r (by simpa using this)

theorem farmInner_recs_minT (hav : ℚ → ℚ → ℚ → ℚ → ℚ) (ws : List WarehouseState)
    (maxPairs : ℕ) (minT ratio : ℚ) (fnode : NodeInfo) :
    ∀ (order : List ℕ) (avail : ℚ) (inv : List ℚ) (recs : List FarmRec),
    ∃ new, (farmInner hav ws maxPairs minT ratio fnode order avail inv recs).2.2
      = recs ++ new ∧ ∀ r ∈ new, RoundedFrom minT r.suggested_quantity_kg := by
  intro order
  induction order with
  | nil =>
    intro avail inv recs
    exact ⟨[], by simp [farmInner], by simp⟩
  | cons w rest ih =>
    intro avail inv recs
    simp only [farmInner]
    by_cases hbreak : maxPairs ≤ recs.length ∨ avail < minT
    · rw [if_pos hbreak]
      exact ⟨[], by simp, by simp⟩
    rw [if_neg hbreak]
    cases hd : geoDistance hav fnode (nodeAt ws w) with
    | none => exact ih avail inv recs
    | some distance =>
      dsimp only
      by_cases hcap : capAt ws w ≤ 0
      · rw [if_pos hcap]
        exact ih avail inv recs
      rw [if_neg hcap]
      by_cases hfull : capAt ws w * ratio ≤ invAt inv w
      · rw [if_pos hfull]
        exact ih avail inv recs
      rw [if_neg hfull]
      by_cases hrecv : min (max (capAt ws w * ratio - invAt inv w) 0)
          (max (capAt ws w - invAt inv w) 0) < minT
      · rw [if_pos hrecv]
        exact ih avail inv recs
      rw [if_neg hrecv]
      by_cases htr : min avail (min (max (capAt ws w * ratio - invAt inv w) 0)
          (max (capAt ws w - invAt inv w) 0)) < minT
      · rw [if_pos htr]
        exact ih avail inv recs
      rw [if_neg htr]
      obtain ⟨new1, hnew1, hgood1⟩ := ih
        (max (avail - min avail (min (max (capAt ws w * ratio - invAt inv w) 0)
          (max (capAt ws w - invAt inv w) 0))) 0)
        (inv.set w (invAt inv w + min avail (min (max (capAt ws w * ratio - invAt inv w) 0)
          (max (capAt ws w - invAt inv w) 0))))
        _
      refine ⟨_ :: new1, by rw [hnew1, List.append_assoc, List.singleton_append], ?_⟩
      intro r hr
      rcases List.mem_cons.1 hr with rfl | hmem
      · exact ⟨min avail (min (max (capAt ws w * ratio - invAt inv w) 0)
          (max (capAt ws w - invAt inv w) 0)), not_lt.1 htr, rfl⟩
      · exact hgood1 r hmem

theorem farmOuter_recs_minT (hav : ℚ → ℚ → ℚ → ℚ → ℚ) (ws : List WarehouseState)
    (maxPairs : ℕ) (minT ratio : ℚ) :
    ∀ (fs : List (ℕ × FarmState)) (inv : List ℚ) (recs : List FarmRec)
      (lastF : Option ℕ) (lastA : Option ℚ),
    ∃ new, (farmOuter hav ws maxPairs minT ratio fs inv recs lastF lastA).2.1
      = recs ++ new ∧ ∀ r ∈ new, RoundedFrom minT r.suggested_quantity_kg := by
  intro fs
  induction fs with
  | nil =>
    intro inv recs lastF lastA
    exact ⟨[], by simp [farmOuter], by simp⟩
  | cons p rest ih =>
    intro inv recs lastF lastA
    obtain ⟨fi, f⟩ := p
    simp only [farmOuter]
    by_cases hbreak : maxPairs ≤ recs.length
    · rw [if_pos hbreak]
      exact ⟨[], by simp, by simp⟩
    rw [if_neg hbreak]
    by_cases hsmall : f.supply < minT
    · rw [if_pos hsmall]
      exact ih inv recs (some fi) (some f.supply)
    rw [if_neg hsmall]
    obtain ⟨new1, hnew1, hgood1⟩ := farmInner_recs_minT hav ws maxPairs minT ratio
      f.node (List.insertionSort (whDistLE hav ws f.node) (List.range ws.length))
      f.supply inv recs
    obtain ⟨new2, hnew2, hgood2⟩ := ih
      (farmInner hav ws maxPairs minT ratio f.node
        (List.insertionSort (whDistLE hav ws f.node) (List.range ws.length))
        f.supply inv recs).2.1
      (farmInner hav ws maxPairs minT ratio f.node
        (List.insertionSort (whDistLE hav ws f.node) (List.range ws.length))
        f.supply inv recs).2.2
      (some fi)
      (some (farmInner hav ws maxPairs minT ratio f.node
        (List.insertionSort (whDistLE hav ws f.node) (List.range ws.length))
        f.supply inv recs).1)
    refine ⟨new1 ++ new2, ?_, ?_⟩
    · rw [hnew2, hnew1, List.append_assoc]
    · intro r hr
      rcases List.mem_append.1 hr with hm | hm
      · exact hgood1 r hm
      · exact hgood2 r hm

theorem planFarmFull_recs_minT (hav : ℚ → ℚ → ℚ → ℚ → ℚ) (farms : List FarmState)
    (ws : List WarehouseState) (maxPairs : ℕ) (minT ratio : ℚ) :
    ∀ r, planFarmFull hav farms ws maxPairs minT ratio = some r →
    ∀ x ∈ r.1, RoundedFrom minT x.suggested_quantity_kg := by
  intro r hr
  simp only [planFarmFull] at hr
  split_ifs at hr with hempty
  · obtain rfl := Option.some.inj hr
    simp
  · obtain ⟨new, hnew, hgood⟩ := farmOuter_recs_minT hav ws maxPairs minT ratio
      (List.insertionSort farmGE farms.enum) (ws.map (·.inventory)) [] none none
    split at hr
    · obtain rfl := Option.some.inj hr
      intro x hx
      have := List.take_subset maxPairs _ hx
      rw [hnew] at this
      exact hgood x (by simpa using this)
    · exact absurd hr (by simp)
    · obtain rfl := Option.some.inj hr
      intro x hx
      have := List.take_subset maxPairs _ hx
      rw [hnew] at this
      exact hgood x (by simpa using this)

theorem plan_warehouse_transfers_length (hav : ℚ → ℚ → ℚ → ℚ → ℚ)
    (ws : List WarehouseState) (maxPairs : ℕ) (minT over under ratio : ℚ) :
    (plan_warehouse_transfers hav ws maxPairs minT over under ratio).length
      ≤ maxPairs := by
  unfold plan_warehouse_transfers
  by_cases hempty : (classify ws minT over under ratio).1 = [] ∨
      (classify ws minT over under ratio).2 = []
  · rw [planWarehouseFull_eq_empty hav ws maxPairs minT over under ratio hempty]
    exact Nat.zero_le _
  · rw [planWarehouseFull_eq_run hav ws maxPairs minT over under ratio hempty]
    exact List.length_take_le _ _

theorem planFarmFull_length (hav : ℚ → ℚ → ℚ → ℚ → ℚ) (farms : List FarmState)
    (ws : List WarehouseState) (maxPairs : ℕ) (minT ratio : ℚ) :
    ∀ r, planFarmFull hav farms ws maxPairs minT ratio = some r →
    r.1.length ≤ maxPairs := by
  intro r hr
  simp only [planFarmFull] at hr
  split_ifs at hr with hempty
  · obtain rfl := Option.some.inj hr
    exact Nat.zero_le _
  · split at hr
    · obtain rfl := Option.some.inj hr
      exact List.length_take_le _ _
    · exact absurd hr (by simp)
    · obtain rfl := Option.some.inj hr
      exact List.length_take_le _ _

/-! ### Unavailable distances: pairs with missing coordinates are skipped -/

theorem geoDistance_none_of_lat_none (hav : ℚ → ℚ → ℚ → ℚ → ℚ)
    {b : NodeInfo} (h : b.lat = none) (a : NodeInfo) :
    geoDistance hav a b = none := by
  cases hla : a.lat <;> cases hlo : a.lon <;> cases hlg : b.lon <;>
    simp [geoDistance, h, hla, hlo, hlg]

theorem nodeAt_lat_none {ws : List WarehouseState}
    (h : ∀ s ∈ ws, s.node.lat = none) (i : ℕ) : (nodeAt ws i).lat = none := by
  cases hw : ws[i]? with
  | none =>
    simp only [nodeAt, hw]
    rfl
  | some s =>
    rw [nodeAt_of_getElem hw]
    have hmem : s ∈ ws := by
      have hlt : i < ws.length := by
        by_contra hge
        rw [List.getElem?_eq_none (le_of_not_lt hge)] at hw
        cases hw
      have := List.getElem?_eq_getElem hlt
      rw [hw] at this
      obtain rfl := Option.some.inj this.symm
      exact List.getElem_mem hlt
    exact h s hmem

theorem whInner_unlocated (hav : ℚ → ℚ → ℚ → ℚ → ℚ) {ws : List WarehouseState}
    (h : ∀ i, (nodeAt ws i).lat = none) (maxPairs : ℕ) (minT ratio : ℚ) (src : ℕ) :
    ∀ (ts : List UnderEntry) (avail : ℚ) (inv : List ℚ)
      (unders : List UnderEntry) (recs : List WhRec),
    (whInner hav ws maxPairs minT ratio src ts avail inv unders recs).2.2.2 = recs := by
  intro ts
  induction ts with
  | nil => intro avail inv unders recs; rfl
  | cons t rest ih =>
    intro avail inv unders recs
    have hdn : geoDistance hav (nodeAt ws src) (nodeAt ws t.idx) = none :=
      geoDistance_none_of_lat_none hav (h t.idx) _
    simp only [whInner, hdn]
    split_ifs <;> first | rfl | exact ih avail inv unders recs

theorem whOuter_unlocated (hav : ℚ → ℚ → ℚ → ℚ → ℚ) {ws : List WarehouseState}
    (h : ∀ i, (nodeAt ws i).lat = none) (maxPairs : ℕ) (minT ratio : ℚ) :
    ∀ (overs : List OverEntry) (inv : List ℚ) (unders : List UnderEntry)
      (recs : List WhRec),
    (whOuter hav ws maxPairs minT ratio overs inv unders recs).2.2 = recs := by
  intro overs
  induction overs with
  | nil => intro inv unders recs; rfl
  | cons o rest ih =>
    intro inv unders recs
    simp only [whOuter]
    split_ifs with hbreak
    · rfl
    · rw [ih, whInner_unlocated hav h]

theorem plan_warehouse_transfers_unlocated (hav : ℚ → ℚ → ℚ → ℚ → ℚ)
    {ws : List WarehouseState} (h : ∀ s ∈ ws, s.node.lat = none)
    (maxPairs : ℕ) (minT over under ratio : ℚ) :
    plan_warehouse_transfers hav ws maxPairs minT over under ratio = [] := by
  unfold plan_warehouse_transfers
  by_cases hempty : (classify ws minT over under ratio).1 = [] ∨
      (classify ws minT over under ratio).2 = []
  · rw [planWarehouseFull_eq_empty hav ws maxPairs minT over under ratio hempty]
  · rw [planWarehouseFull_eq_run hav ws maxPairs minT over under ratio hempty]
    rw [whOuter_unlocated hav (nodeAt_lat_none h) maxPairs minT ratio]
    simp

theorem farmInner_unlocated (hav : ℚ → ℚ → ℚ → ℚ → ℚ) {ws : List WarehouseState}
    (h : ∀ i, (nodeAt ws i).lat = none) (maxPairs : ℕ) (minT ratio : ℚ)
    (fnode : NodeInfo) :
    ∀ (order : List ℕ) (avail : ℚ) (inv : List ℚ) (recs : List FarmRec),
    (farmInner hav ws maxPairs minT ratio fnode order avail inv recs).2.2 = recs := by
  intro order
  induction order with
  | nil => intro avail inv recs; rfl
  | cons w rest ih =>
    intro avail inv recs
    have hdn : geoDistance hav fnode (nodeAt ws w) = none :=
      geoDistance_none_of_lat_none hav (h w) fnode
    simp only [farmInner, hdn]
    split_ifs <;> first | rfl | exact ih avail inv recs

theorem farmOuter_unlocated (hav : ℚ → ℚ → ℚ → ℚ → ℚ) {ws : List WarehouseState}
    (h : ∀ i, (nodeAt ws i).lat = none) (maxPairs : ℕ) (minT ratio : ℚ) :
    ∀ (fs : List (ℕ × FarmState)) (inv : List ℚ) (recs : List FarmRec)
      (lastF : Option ℕ) (lastA : Option ℚ),
    (farmOuter hav ws maxPairs minT ratio fs inv recs lastF lastA).2.1 = recs := by
  intro fs
  induction fs with
  | nil => intro inv recs lastF lastA; rfl
  | cons p rest ih =>
    intro inv recs lastF lastA
    obtain ⟨fi, f⟩ := p
    simp only [farmOuter]
    split_ifs with hbreak hsmall
    · rfl
    · exact ih inv recs (some fi) (some f.supply)
    · rw [ih, farmInner_unlocated hav h]

theorem planFarmFull_unlocated (hav : ℚ → ℚ → ℚ → ℚ → ℚ) (farms : List FarmState)
    {ws : List WarehouseState} (h : ∀ s ∈ ws, s.node.lat = none)
    (maxPairs : ℕ) (minT ratio : ℚ) :
    ∀ r, planFarmFull hav farms ws maxPairs minT ratio = some r → r.1 = [] := by
  intro r hr
  simp only [planFarmFull] at hr
  split_ifs at hr with hempty
  · obtain rfl := Option.some.inj hr
    rfl
  · rw [farmOuter_unlocated hav (nodeAt_lat_none h) maxPairs minT ratio] at hr
    split at hr
    · obtain rfl := Option.some.inj hr
      simp
    · exact absurd hr (by simp)
    · obtain rfl := Option.some.inj hr
      simp

/-! ### The inventory aggregator with no status column -/

theorem statusColPresent_false {bs : List BatchRecord}
    (h : ∀ b ∈ bs, b.status = none) : statusColPresent bs = false := by
  rw [statusColPresent, List.any_eq_false]
  intro b hb
  simp [h b hb]

theorem isRelevant_of_no_status {bs : List BatchRecord}
    (h : ∀ b ∈ bs, b.status = none) (b : BatchRecord) (hb : b ∈ bs) :
    isRelevant bs b = true := by
  simp [isRelevant, effStatus, statusColPresent_false h]

/-! ### Validation -/

theorem validate_ok_iff (p : Params) :
    validate_parameters p = Except.ok () ↔ ValidParams p := by
  constructor
  · intro heq
    unfold validate_parameters at heq
    split_ifs at heq with h1 h2 h3 h4 <;> try simp at heq
    push_neg at h1 h3 h4
    have h2' : 0 < p.understock_r ∧ p.understock_r < p.overstock_r ∧
        p.overstock_r ≤ 1 := by tauto
    exact ⟨h1.1, h1.2, h2'.1, h2'.2.1, h2'.2.2, h3, h4⟩
  · intro hv
    unfold validate_parameters
    rw [if_neg (not_or.2 ⟨not_le.2 hv.1, not_lt.2 hv.2.1⟩),
      if_neg (not_not.2 ⟨hv.2.2.1, hv.2.2.2.1, hv.2.2.2.2.1⟩),
      if_neg (not_le.2 hv.2.2.2.2.2.1), if_neg (not_le.2 hv.2.2.2.2.2.2)]

theorem runMain_error_of_validate {p : Params} {e : String}
    (h : validate_parameters p = Except.error e) (hav : ℚ → ℚ → ℚ → ℚ → ℚ)
    (ws : List WarehouseState) (farms : List FarmState) :
    runMain hav p ws farms = Except.error e := by
  unfold runMain
  rw [h]

theorem validate_error_of_invalid {p : Params} (h : ¬ ValidParams p) :
    ∃ e, validate_parameters p = Except.error e := by
  cases heq : validate_parameters p with
  | error e => exact ⟨e, rfl⟩
  | ok u =>
    cases u
    exact absurd ((validate_ok_iff p).1 heq) h

/-! ## The claims -/

set_option maxRecDepth 8000

/-- C1 (counterexample): on two warehouses with all coordinates missing,
the rebalancer classifies an overstocked and an understocked candidate yet
emits no recommendation, and the farm router over the same unlocated
warehouses emits none either: the unavailable distance acts as a hard
constraint, and no recommendation with a null distance is ever produced —
contradicting the claim that recommendations are still emitted with a null
distance when no warehouses are located. -/
theorem C1_counterexample :
    plan_warehouse_transfers (havK 50) wsUnlocated 5 200 (4/5) (2/5) (3/5) = [] ∧
    (classify wsUnlocated 200 (4/5) (2/5) (3/5)).1 ≠ [] ∧
    (classify wsUnlocated 200 (4/5) (2/5) (3/5)).2 ≠ [] ∧
    plan_farm_to_warehouse (havK 50) farmsTwo wsUnlocated 5 200 (3/5) = some [] := by
  refine ⟨?_, ?_, ?_, ?_⟩ <;>
    norm_num [plan_warehouse_transfers, planWarehouseFull, classify, classifyGo,
    overEntriesFor, underEntriesFor, whNode, havK, WarehouseState.capacity,
    WarehouseState.utilization, List.insertionSort, List.orderedInsert, overLE,
    underLE, targetLE, utilAt, capAt, invAt, nodeAt, optDist, whOuter, whInner,
    shortageOf, setShortage, geoDistance, mkWhRec, node_projection_payload,
    format_pct, pyRound, pyRoundHalfEven, List.find?, tinvAt, List.cons_ne_nil,
    planFarmFull, plan_farm_to_warehouse, farmOuter, farmInner, whDistLE,
    farmGE, farm_payload, farmNode, List.enum, List.enumFrom, (show List.range 1 = [0] from rfl),
    (show List.range 2 = [0, 1] from rfl),
    wsUnlocated, farmsTwo]

/-- C1 (amended): the unavailable distance is used as a ranking key that
sorts the pair last, but it is also a hard constraint — a source–target
pair whose distance is unavailable is skipped, so when no warehouse has
coordinates neither pass emits any recommendation. -/
theorem C1_amended (hav : ℚ → ℚ → ℚ → ℚ → ℚ) (ws : List WarehouseState)
    (farms : List FarmState) (maxPairs : ℕ) (minT over under ratio : ℚ)
    (h : ∀ s ∈ ws, s.node.lat = none) :
    plan_warehouse_transfers hav ws maxPairs minT over under ratio = [] ∧
    ∀ r, planFarmFull hav farms ws maxPairs minT ratio = some r → r.1 = [] :=
  ⟨plan_warehouse_transfers_unlocated hav h maxPairs minT over under ratio,
   planFarmFull_unlocated hav farms h maxPairs minT ratio⟩

/-- C1 (witness): the amended statement applied to the concrete unlocated
scenario. -/
theorem C1_amended_witness :
    (∀ s ∈ wsUnlocated, s.node.lat = none) ∧
    plan_warehouse_transfers (havK 50) wsUnlocated 5 200 (4/5) (2/5) (3/5) = [] := by
  have h : ∀ s ∈ wsUnlocated, s.node.lat = none := by
    intro s hs
    simp only [wsUnlocated, whNode, List.mem_cons, List.mem_singleton] at hs
    rcases hs with rfl | rfl | habs
    · simp
    · simp
    · cases habs
  exact ⟨h, (C1_amended (havK 50) wsUnlocated farmsTwo 5 200 (4/5) (2/5) (3/5) h).1⟩

/-- C2 (code evaluated at the failing input): with two farms both shipping
to one warehouse, both farm-to-warehouse recommendations are emitted (farm
F1 ships 1000 kg, farm F2 ships 800 kg), yet the final farm supplies are
[1000, 0]: only the last iterated farm's FarmState.supply was written; the
first farm still reports the supply it in fact shipped.  This contradicts
the claim (and the specification's stated intent) that every farm's
remaining supply is persisted immediately after its own matching. -/
theorem C2_farm_supply_bug :
    (planFarmFull (havK 50) farmsTwo whSingle 5 200 (3/5)).map
      (fun r => ((r.1).map (fun x => (x.source.mongoId, x.suggested_quantity_kg)),
        r.2.1))
      = some ([("F1", 1000), ("F2", 800)], [1000, 0]) := by
  norm_num [plan_warehouse_transfers, planWarehouseFull, classify, classifyGo,
    overEntriesFor, underEntriesFor, whNode, havK, WarehouseState.capacity,
    WarehouseState.utilization, List.insertionSort, List.orderedInsert, overLE,
    underLE, targetLE, utilAt, capAt, invAt, nodeAt, optDist, whOuter, whInner,
    shortageOf, setShortage, geoDistance, mkWhRec, node_projection_payload,
    format_pct, pyRound, pyRoundHalfEven, List.find?, tinvAt, List.cons_ne_nil,
    planFarmFull, plan_farm_to_warehouse, farmOuter, farmInner, whDistLE,
    farmGE, farm_payload, farmNode, List.enum, List.enumFrom, (show List.range 1 = [0] from rfl),
    (show List.range 2 = [0, 1] from rfl),
    farmsTwo, whSingle]

/-- C4: in Scenario 1 — capacity 10000 warehouses holding 9500 and 0,
located 50 km apart, target_ratio 0.6, min_transfer_kg 200, default
overstock 0.8 and understock 0.4 ratios, default max_pairs 5 — the
rebalancer emits exactly one recommendation, transferring 3500 kg and
leaving the source at 6000 and the target at 3500. -/
theorem C4_scenario1 :
    plan_warehouse_transfers (havK 50) wsScenario1 5 200 (4/5) (2/5) (3/5)
      = [recScenario1] ∧
    recScenario1.suggested_quantity_kg = 3500 ∧
    recScenario1.source.projected_inventory_kg = 6000 ∧
    recScenario1.target.projected_inventory_kg = 3500 := by
  refine ⟨?_, rfl, rfl, rfl⟩
  norm_num [plan_warehouse_transfers, planWarehouseFull, classify, classifyGo,
    overEntriesFor, underEntriesFor, whNode, havK, WarehouseState.capacity,
    WarehouseState.utilization, List.insertionSort, List.orderedInsert, overLE,
    underLE, targetLE, utilAt, capAt, invAt, nodeAt, optDist, whOuter, whInner,
    shortageOf, setShortage, geoDistance, mkWhRec, node_projection_payload,
    format_pct, pyRound, pyRoundHalfEven, List.find?, tinvAt, List.cons_ne_nil,
    wsScenario1, recScenario1]

/-- C5 (counterexample): with min_transfer_kg = 200.004 (an admissible
positive parameter) the rebalancer emits a transfer of exactly 200.004 kg,
whose reported quantity rounds to 200.0 — strictly below min_transfer_kg,
so the claim that the reported (2-decimal-rounded) quantity is always at
least min_transfer_kg is false. -/
theorem C5_counterexample :
    (plan_warehouse_transfers (havK 50) wsRoundGap 5 (50001/250) (4/5) (2/5)
      (4/5)).map (·.suggested_quantity_kg) = [200] ∧
    (200 : ℚ) < 50001/250 := by
  constructor
  · norm_num [plan_warehouse_transfers, planWarehouseFull, classify, classifyGo,
    overEntriesFor, underEntriesFor, whNode, havK, WarehouseState.capacity,
    WarehouseState.utilization, List.insertionSort, List.orderedInsert, overLE,
    underLE, targetLE, utilAt, capAt, invAt, nodeAt, optDist, whOuter, whInner,
    shortageOf, setShortage, geoDistance, mkWhRec, node_projection_payload,
    format_pct, pyRound, pyRoundHalfEven, List.find?, tinvAt, List.cons_ne_nil,
      wsRoundGap]
  · norm_num

/-- C5 (amended): every emitted recommendation's exact transfer amount is
at least min_transfer_kg; the reported quantity is its 2-decimal rounding,
hence at least min_transfer_kg − 1/200, and at least min_transfer_kg
itself whenever 100·min_transfer_kg is an integer (in particular for the
default 200). -/
theorem C5_amended (hav : ℚ → ℚ → ℚ → ℚ → ℚ) (ws : List WarehouseState)
    (farms : List FarmState) (maxPairs : ℕ) (minT over under ratio : ℚ) :
    (∀ r ∈ plan_warehouse_transfers hav ws maxPairs minT over under ratio,
        minT - 1/200 ≤ r.suggested_quantity_kg ∧
        ∀ k : ℤ, (k : ℚ) = minT * 100 → minT ≤ r.suggested_quantity_kg) ∧
    (∀ res, planFarmFull hav farms ws maxPairs minT ratio = some res →
        ∀ r ∈ res.1, minT - 1/200 ≤ r.suggested_quantity_kg ∧
          ∀ k : ℤ, (k : ℚ) = minT * 100 → minT ≤ r.suggested_quantity_kg) := by
  have key : ∀ q : ℚ, RoundedFrom minT q →
      minT - 1/200 ≤ q ∧ ∀ k : ℤ, (k : ℚ) = minT * 100 → minT ≤ q := by
    rintro q ⟨t, hmt, rfl⟩
    constructor
    · have h := pyRound_ge_sub t 2
      have h2 : (1 : ℚ) / (2 * (10 : ℚ) ^ 2) = 1/200 := by norm_num
      rw [h2] at h
      linarith
    · intro k hk
      have hkt : (k : ℚ) ≤ t * (10 : ℚ) ^ 2 := by
        rw [hk]
        nlinarith
      have h := int_div_le_pyRound 2 hkt
      have h3 : (k : ℚ) / (10 : ℚ) ^ 2 = minT := by
        rw [hk]
        ring
      rw [h3] at h
      exact h
  constructor
  · intro r hr
    exact key _ (plan_warehouse_transfers_minT hav ws maxPairs minT over under ratio r hr)
  · intro res hres r hr
    exact key _ (planFarmFull_recs_minT hav farms ws maxPairs minT ratio res hres r hr)

/-- C5 (witness): the amended bound applied to the Scenario 1
recommendation, whose reported quantity is 3500 kg against the 200 kg
threshold. -/
theorem C5_amended_witness :
    (200 : ℚ) - 1/200 ≤ recScenario1.suggested_quantity_kg ∧
    (200 : ℚ) ≤ recScenario1.suggested_quantity_kg := by
  have hmem : recScenario1 ∈
      plan_warehouse_transfers (havK 50) wsScenario1 5 200 (4/5) (2/5) (3/5) := by
    rw [C4_scenario1.1]
    exact List.mem_singleton.2 rfl
  have h := (C5_amended (havK 50) wsScenario1 farmsTwo 5 200 (4/5) (2/5) (3/5)).1
    recScenario1 hmem
  exact ⟨h.1, h.2 20000 (by norm_num)⟩

/-- C3: in both passes, every emitted recommendation's suggested quantity
is bounded by the source's reported remaining surplus (excess_before_kg /
remaining farm supply) and by the target's reported remaining shortage
(shortage_before_kg) at the time of matching; the target's projected
inventory never exceeds its capacity; and after all matching every
understocked target's final inventory is still within its capacity, and
every farm-pass warehouse inventory is within the larger of its starting
inventory and its capacity — no unit of surplus or capacity is counted by
two recommendations, since the remaining quantities are decremented as
each one is emitted. -/
theorem C3_capacity_bounds (hav : ℚ → ℚ → ℚ → ℚ → ℚ)
    (ws : List WarehouseState) (farms : List FarmState) (maxPairs : ℕ)
    (minT over under ratio : ℚ)
    (hminT : 0 < minT) (hr0 : 0 < ratio) (hr1 : ratio ≤ 1) (huo : under ≤ over) :
    (∀ r ∈ plan_warehouse_transfers hav ws maxPairs minT over under ratio,
        r.suggested_quantity_kg ≤ r.source.extra_kg ∧
        r.suggested_quantity_kg ≤ r.target.extra_kg ∧
        r.target.projected_inventory_kg ≤ r.target.capacity_kg) ∧
    (∀ e ∈ (classify ws minT over under ratio).2,
        invAt (planWarehouseFull hav ws maxPairs minT over under ratio).2 e.idx ≤
          capAt ws e.idx) ∧
    (∀ res, planFarmFull hav farms ws maxPairs minT ratio = some res →
        (∀ r ∈ res.1,
            r.suggested_quantity_kg ≤ r.source.inventory_kg ∧
            r.suggested_quantity_kg ≤ r.target.extra_kg ∧
            r.target.projected_inventory_kg ≤ r.target.capacity_kg) ∧
        (∀ j, invAt res.2.2 j ≤
          max (invAt (ws.map (·.inventory)) j) (capAt ws j))) := by
  obtain ⟨hrecs, hunders, hovers⟩ := planWarehouseFull_spec hav ws maxPairs minT
    over under ratio hminT hr0.le hr1 huo
  refine ⟨fun r hr => hrecs r hr, ?_, ?_⟩
  · intro e he
    obtain ⟨hle, _, hcap, _⟩ := hunders e he
    linarith
  · intro res hres
    obtain ⟨_, hfrecs, hinv⟩ := planFarmFull_spec hav farms ws maxPairs minT ratio
      hminT res hres
    refine ⟨fun r hr => hfrecs r hr, ?_⟩
    intro j
    rcases hinv j with heq | ⟨_, hcap⟩
    · rw [heq]
      exact le_max_left _ _
    · exact le_trans hcap (le_max_right _ _)

/-- C3 (witness): the capacity bounds applied to Scenario 1 and to the
two-farm routing fixture. -/
theorem C3_capacity_bounds_witness :
    ((0:ℚ) < 200 ∧ (0:ℚ) < 3/5 ∧ (3/5:ℚ) ≤ 1 ∧ (2/5:ℚ) ≤ 4/5) ∧
    recScenario1.suggested_quantity_kg ≤ recScenario1.source.extra_kg ∧
    recScenario1.suggested_quantity_kg ≤ recScenario1.target.extra_kg ∧
    recScenario1.target.projected_inventory_kg ≤ recScenario1.target.capacity_kg := by
  have hmem : recScenario1 ∈
      plan_warehouse_transfers (havK 50) wsScenario1 5 200 (4/5) (2/5) (3/5) := by
    rw [C4_scenario1.1]
    exact List.mem_singleton.2 rfl
  have h := (C3_capacity_bounds (havK 50) wsScenario1 farmsTwo 5 200 (4/5) (2/5)
    (3/5) (by norm_num) (by norm_num) (by norm_num) (by norm_num)).1
    recScenario1 hmem
  exact ⟨⟨by norm_num, by norm_num, by norm_num, by norm_num⟩, h.1, h.2.1, h.2.2⟩

/-- C6: with a positive max_pairs, the warehouse pass returns at most
max_pairs recommendations, and so does the farm pass whenever it returns
at all. -/
theorem C6_max_pairs (hav : ℚ → ℚ → ℚ → ℚ → ℚ) (ws : List WarehouseState)
    (farms : List FarmState) (maxPairs : ℕ) (minT over under ratio : ℚ)
    (h : 0 < maxPairs) :
    (plan_warehouse_transfers hav ws maxPairs minT over under ratio).length
      ≤ maxPairs ∧
    ∀ res, planFarmFull hav farms ws maxPairs minT ratio = some res →
      res.1.length ≤ maxPairs :=
  ⟨plan_warehouse_transfers_length hav ws maxPairs minT over under ratio,
   planFarmFull_length hav farms ws maxPairs minT ratio⟩

/-- C6 (witness): the bound applied to the concrete fixtures at
max_pairs = 5. -/
theorem C6_max_pairs_witness :
    0 < 5 ∧
    (plan_warehouse_transfers (havK 50) wsScenario1 5 200 (4/5) (2/5) (3/5)).length
      ≤ 5 ∧
    ((plan_farm_to_warehouse (havK 50) farmsTwo whSingle 5 200 (3/5)).getD []).length
      ≤ 5 := by
  have h := C6_max_pairs (havK 50) wsScenario1 farmsTwo 5 200 (4/5) (2/5) (3/5)
    (by norm_num)
  have h2 := C6_max_pairs (havK 50) whSingle farmsTwo 5 200 (4/5) (2/5) (3/5)
    (by norm_num)
  refine ⟨by norm_num, h.1, ?_⟩
  cases hres : planFarmFull (havK 50) farmsTwo whSingle 5 200 (3/5) with
  | none => simp [plan_farm_to_warehouse, hres]
  | some res =>
    have := h2.2 res hres
    simp [plan_farm_to_warehouse, hres]
    exact this

/-- C7: validate_parameters accepts a parameter combination exactly when
it satisfies the documented constraints, and for every invalid
combination the run fails with the validation error before any data is
consulted: the same error is produced whatever warehouse and farm data
would have been read, so no partial report can exist. -/
theorem C7_fail_fast (p : Params) :
    (validate_parameters p = Except.ok () ↔ ValidParams p) ∧
    (¬ ValidParams p →
      ∃ e, ∀ (hav : ℚ → ℚ → ℚ → ℚ → ℚ) (ws : List WarehouseState)
        (farms : List FarmState), runMain hav p ws farms = Except.error e) := by
  refine ⟨validate_ok_iff p, fun hnv => ?_⟩
  obtain ⟨e, he⟩ := validate_error_of_invalid hnv
  exact ⟨e, fun hav ws farms => runMain_error_of_validate he hav ws farms⟩

/-- C7 (witness): the defaults validate; a target-ratio of 2 is rejected
and the run errors out regardless of the data. -/
theorem C7_fail_fast_witness :
    ¬ ValidParams paramsBad ∧
    (∃ e, runMain (havK 50) paramsBad wsScenario1 farmsTwo = Except.error e) ∧
    validate_parameters paramsOk = Except.ok () := by
  have hbad : ¬ ValidParams paramsBad := by
    norm_num [ValidParams, paramsBad]
  have hok : ValidParams paramsOk := by
    norm_num [ValidParams, paramsOk]
  obtain ⟨e, he⟩ := (C7_fail_fast paramsBad).2 hbad
  exact ⟨hbad, ⟨e, he (havK 50) wsScenario1 farmsTwo⟩,
    (C7_fail_fast paramsOk).1.2 hok⟩

/-- C8: both planning passes are deterministic — two runs on equal,
unmutated inputs with equal parameters return equal recommendation lists
(the embedding is a pure function whose sorts are the stable insertion
sort, matching Python's stable sorted/list.sort) — and the utilization
orderings they use are indeed sorted: the overstock pool descending and
the understock pool ascending by utilization. -/
theorem C8_deterministic (hav : ℚ → ℚ → ℚ → ℚ → ℚ)
    (ws ws' : List WarehouseState) (farms farms' : List FarmState)
    (maxPairs : ℕ) (minT over under ratio : ℚ)
    (h1 : ws = ws') (h2 : farms = farms') :
    plan_warehouse_transfers hav ws maxPairs minT over under ratio =
      plan_warehouse_transfers hav ws' maxPairs minT over under ratio ∧
    plan_farm_to_warehouse hav farms ws maxPairs minT ratio =
      plan_farm_to_warehouse hav farms' ws' maxPairs minT ratio ∧
    List.Sorted (overLE ws)
      (List.insertionSort (overLE ws) (classify ws minT over under ratio).1) ∧
    List.Sorted (underLE ws)
      (List.insertionSort (underLE ws) (classify ws minT over under ratio).2) := by
  subst h1
  subst h2
  exact ⟨rfl, rfl, List.sorted_insertionSort _ _, List.sorted_insertionSort _ _⟩

/-- C8 (witness): determinism and sortedness at the Scenario 1 input. -/
theorem C8_deterministic_witness :
    plan_warehouse_transfers (havK 50) wsScenario1 5 200 (4/5) (2/5) (3/5) =
      plan_warehouse_transfers (havK 50) wsScenario1 5 200 (4/5) (2/5) (3/5) ∧
    List.Sorted (overLE wsScenario1)
      (List.insertionSort (overLE wsScenario1)
        (classify wsScenario1 200 (4/5) (2/5) (3/5)).1) := by
  have h := C8_deterministic (havK 50) wsScenario1 wsScenario1 farmsTwo farmsTwo
    5 200 (4/5) (2/5) (3/5) rfl rfl
  exact ⟨h.1, h.2.2.1⟩

/-- C9 (counterexample): a source warehouse holding 15000 kg against a
10000 kg capacity sheds only the 200 kg its sole understocked peer is
short of and finishes, mutated, at 14800 kg — outside [0, capacity] — so
mutated inventories do not in general stay within [0, capacity]. -/
theorem C9_counterexample :
    wsOverCap.map (·.inventory) = [15000, 3900] ∧
    (planWarehouseFull (havK 50) wsOverCap 5 200 (4/5) (2/5) (41/100)).2
      = [14800, 4100] ∧
    capAt wsOverCap 0 = 10000 ∧
    ¬ ((14800 : ℚ) ≤ 10000) := by
  refine ⟨?_, ?_, ?_, ?_⟩ <;>
    norm_num [plan_warehouse_transfers, planWarehouseFull, classify, classifyGo,
    overEntriesFor, underEntriesFor, whNode, havK, WarehouseState.capacity,
    WarehouseState.utilization, List.insertionSort, List.orderedInsert, overLE,
    underLE, targetLE, utilAt, capAt, invAt, nodeAt, optDist, whOuter, whInner,
    shortageOf, setShortage, geoDistance, mkWhRec, node_projection_payload,
    format_pct, pyRound, pyRoundHalfEven, List.find?, tinvAt, List.cons_ne_nil,
    wsOverCap]

/-- C9 (amended): after the pass every participating source warehouse
holds at least its target inventory (which is non-negative) and no more
than it started with; every participating target holds at least what it
started with and at most its target inventory, which is within its
capacity.  Hence sources stay within [0, capacity] whenever they start
within capacity, and targets whenever they start non-negative — the
unconditional [0, capacity] bound fails only for a source that begins
above its capacity, as the counterexample shows. -/
theorem C9_amended (hav : ℚ → ℚ → ℚ → ℚ → ℚ) (ws : List WarehouseState)
    (maxPairs : ℕ) (minT over under ratio : ℚ)
    (hminT : 0 < minT) (hr0 : 0 < ratio) (hr1 : ratio ≤ 1) (huo : under ≤ over) :
    (∀ o ∈ (classify ws minT over under ratio).1,
        0 ≤ tinvAt ws ratio o.idx ∧
        tinvAt ws ratio o.idx ≤
          invAt (planWarehouseFull hav ws maxPairs minT over under ratio).2 o.idx ∧
        invAt (planWarehouseFull hav ws maxPairs minT over under ratio).2 o.idx ≤
          invAt (ws.map (·.inventory)) o.idx) ∧
    (∀ e ∈ (classify ws minT over under ratio).2,
        invAt (ws.map (·.inventory)) e.idx ≤
          invAt (planWarehouseFull hav ws maxPairs minT over under ratio).2 e.idx ∧
        invAt (planWarehouseFull hav ws maxPairs minT over under ratio).2 e.idx ≤
          tinvAt ws ratio e.idx ∧
        tinvAt ws ratio e.idx ≤ capAt ws e.idx) := by
  obtain ⟨_, hunders, hovers⟩ := planWarehouseFull_spec hav ws maxPairs minT
    over under ratio hminT hr0.le hr1 huo
  constructor
  · intro o ho
    obtain ⟨hl, hu, _⟩ := hovers o ho
    exact ⟨tinvAt_nonneg hr0.le o.idx, hl, hu⟩
  · intro e he
    obtain ⟨hle, hge, hcap, _⟩ := hunders e he
    exact ⟨hge, hle, hcap⟩

/-- C9 (witness): the amended bounds at the over-capacity fixture: the
source ends between its 4100 kg target inventory and its initial
15000 kg. -/
theorem C9_amended_witness :
    ((0:ℚ) < 200 ∧ (0:ℚ) < 41/100 ∧ (41/100:ℚ) ≤ 1 ∧ (2/5:ℚ) ≤ 4/5) ∧
    (0 ≤ tinvAt wsOverCap (41/100) 0 ∧
     tinvAt wsOverCap (41/100) 0 ≤
       invAt (planWarehouseFull (havK 50) wsOverCap 5 200 (4/5) (2/5) (41/100)).2 0 ∧
     invAt (planWarehouseFull (havK 50) wsOverCap 5 200 (4/5) (2/5) (41/100)).2 0 ≤
       invAt (wsOverCap.map (·.inventory)) 0) := by
  have hmem : (⟨0, 10900⟩ : OverEntry) ∈
      (classify wsOverCap 200 (4/5) (2/5) (41/100)).1 := by
    norm_num [classify, classifyGo, overEntriesFor, underEntriesFor, wsOverCap,
      whNode, WarehouseState.capacity, WarehouseState.utilization]
  have h := (C9_amended (havK 50) wsOverCap 5 200 (4/5) (2/5) (41/100)
    (by norm_num) (by norm_num) (by norm_num) (by norm_num)).1 ⟨0, 10900⟩ hmem
  exact ⟨⟨by norm_num, by norm_num, by norm_num, by norm_num⟩, h⟩

/-- C10: when no batch record carries a status field, the aggregator
treats every record as status "stored" — an active status — so every
record contributes to the per-node inventory map and (when origin equals
current node) to the per-farm supply map, exactly as if no status filter
were applied. -/
theorem C10_no_status_column (bs : List BatchRecord)
    (h : ∀ b ∈ bs, b.status = none) (node : String) :
    inventoryMapAt bs node = inventoryMapAllAt bs node ∧
    farmMapAt bs node = farmMapAllAt bs node := by
  constructor
  · unfold inventoryMapAt inventoryMapAllAt
    congr 1
    congr 1
    apply List.filter_congr
    intro b hb
    simp [isRelevant_of_no_status h b hb]
  · unfold farmMapAt farmMapAllAt
    congr 1
    congr 1
    apply List.filter_congr
    intro b hb
    simp [isRelevant_of_no_status h b hb]

/-- C10 (witness): the status-free fixture contributes all records to
both maps. -/
theorem C10_no_status_column_witness :
    (∀ b ∈ batchesNoStatus, b.status = none) ∧
    inventoryMapAt batchesNoStatus "W1" = inventoryMapAllAt batchesNoStatus "W1" ∧
    farmMapAt batchesNoStatus "F1" = farmMapAllAt batchesNoStatus "F1" := by
  have h : ∀ b ∈ batchesNoStatus, b.status = none := by
    intro b hb
    simp only [batchesNoStatus, List.mem_cons, List.mem_singleton] at hb
    rcases hb with rfl | rfl | habs
    · rfl
    · rfl
    · cases habs
  exact ⟨h, (C10_no_status_column batchesNoStatus h "W1").1,
    (C10_no_status_column batchesNoStatus h "F1").2⟩

end FoodFlow
